import Mathlib

/-!
# M16C5x SPI/UART bridge firmware (`Code/CCS/M16C5x.c`)

A shallow embedding of the CCS C firmware that relays characters between the
two UART channels of the M16C5x bridge peripheral.

Conventions of the embedding.

* CCS `int` is an unsigned 8-bit quantity.  Bytes are natural numbers; an
  expression that could leave the 8-bit range is reduced `% 256` where it is
  computed.
* The holding registers `SPI_CR`, `SPI_DIO_H`, `SPI_DIO_L`, `xSPI_CR` and
  `Dly_Cntr` are ordinary file registers and are fields of `Machine`.
* The peripheral is the environment.  Every read of the status register
  (address `0x05`) consumes the next element of `sr_in`; every read of
  `PortC` (address `0x07`) consumes the next element of `rx_in`.  A function
  returns `none` when the supplied readings run out, which is how a spin that
  is never released shows up in the model.
* Every bus access is appended to `trace` (oldest first).  The entries
  `call_get_char`, `ret_get_char` and `call_put_char` are ghost entries that
  record the calls made by the relay loop.
* CCS evaluates `~` on an `int1` (a `#bit` variable) as the one-bit
  complement, so `~SPI_SR_TF_EF` is the negation of the flag.
-/

namespace M16C5x

/-! ## Constants -/

/-- Source line 46: `#define COM0 0x00`. -/
def COM0 : Nat := 0x00

/-- Source line 47: `#define COM1 0x80`. -/
def COM1 : Nat := 0x80

/-! ## Events and machine state -/

/-- Bus accesses and ghost call markers recorded in the trace. -/
inductive Event where
  | set_tris_A (v : Nat)
  | set_tris_B (v : Nat)
  | set_tris_C (v : Nat)
  | wr_PortC (v : Nat)
  | rd_PortC (v : Nat)
  | rd_SPI_SR (v : Nat)
  | call_get_char (port : Nat)
  | ret_get_char (port : Nat) (r : Bool)
  | call_put_char (port : Nat)
  deriving DecidableEq

/-- File registers of the firmware together with the pending peripheral
readings and the trace of accesses made so far. -/
structure Machine where
  SPI_CR : Nat
  SPI_DIO_H : Nat
  SPI_DIO_L : Nat
  xSPI_CR : Nat
  Dly_Cntr : Nat
  sr_in : List Nat
  rx_in : List Nat
  trace : List Event

/-! ## Bit access (`#bit` variables) -/

/-- Value of bit `n` of the byte `r`. -/
def bit_test (r n : Nat) : Bool := r.testBit n

/-- Byte `r` with bit `n` cleared (`bcf`). -/
def bit_clear (r n : Nat) : Nat := r &&& (0xFF ^^^ (1 <<< n))

/-- Byte `r` with bit `n` set (`bsf`). -/
def bit_set (r n : Nat) : Nat := (r ||| (1 <<< n)) % 256

/-- Assignment of `v` to bit `n` of `r`. -/
def bit_write (r n : Nat) (v : Bool) : Nat :=
  if v then bit_set r n else bit_clear r n

/-- Source line 9: `#bit SPI_SR_TF_EF = 5.0`, transmit FIFO empty. -/
def SPI_SR_TF_EF (sr : Nat) : Bool := bit_test sr 0

/-- Source line 10: `#bit SPI_SR_TF_FF = 5.1`, transmit FIFO full. -/
def SPI_SR_TF_FF (sr : Nat) : Bool := bit_test sr 1

/-- Source line 11: `#bit SPI_SR_RF_EF = 5.2`, receive FIFO empty. -/
def SPI_SR_RF_EF (sr : Nat) : Bool := bit_test sr 2

/-- Source line 12: `#bit SPI_SR_RF_FF = 5.3`, receive FIFO full. -/
def SPI_SR_RF_FF (sr : Nat) : Bool := bit_test sr 3

/-- Source line 28: `SPI_CR_REn = v` (`#bit SPI_CR_REn = 0x1C.0`). -/
def set_SPI_CR_REn (v : Bool) (m : Machine) : Machine :=
  { m with SPI_CR := bit_write m.SPI_CR 0 v }

/-- Source line 29: `SPI_CR_SSel = v` (`#bit SPI_CR_SSel = 0x1C.1`). -/
def set_SPI_CR_SSel (v : Bool) (m : Machine) : Machine :=
  { m with SPI_CR := bit_write m.SPI_CR 1 v }

/-- Source line 37: `#bit SPI_DIO_RRdy = 0x1D.2`; register `0x1D` is
`SPI_DIO_H`. -/
def SPI_DIO_RRdy (m : Machine) : Bool := bit_test m.SPI_DIO_H 2

/-- Source line 38: `#bit SPI_DIO_RErr = 0x1D.0`; register `0x1D` is
`SPI_DIO_H`. -/
def SPI_DIO_RErr (m : Machine) : Bool := bit_test m.SPI_DIO_H 0

/-- Source line 40: `#bit RD_Ext_ASCII = 0x1E.7`; register `0x1E` is
`SPI_DIO_L`. -/
def RD_Ext_ASCII (m : Machine) : Bool := bit_test m.SPI_DIO_L 7

/-! ## Port access -/

/-- Append one entry to the trace. -/
def emit (e : Event) (m : Machine) : Machine :=
  { m with trace := m.trace ++ [e] }

/-- CCS built-in `set_tris_A(v)`: `v` is latched into TRIS A, which on the
M16C5x carries the external SPI configuration; no file register changes. -/
def set_tris_A (v : Nat) (m : Machine) : Machine := emit (Event.set_tris_A v) m

/-- CCS built-in `set_tris_B(v)`; no file register changes. -/
def set_tris_B (v : Nat) (m : Machine) : Machine := emit (Event.set_tris_B v) m

/-- CCS built-in `set_tris_C(v)`: `v` is latched into TRIS C, which on the
M16C5x is the SPI control register; no file register changes. -/
def set_tris_C (v : Nat) (m : Machine) : Machine := emit (Event.set_tris_C v) m

/-- Assignment `PortC = v`. -/
def write_PortC (v : Nat) (m : Machine) : Machine := emit (Event.wr_PortC v) m

/-- Evaluation of `PortC` as an rvalue: the next byte the peripheral
presents. -/
def read_PortC (m : Machine) : Option (Nat × Machine) :=
  match m.rx_in with
  | [] => none
  | v :: rx => some (v % 256, emit (Event.rd_PortC (v % 256)) { m with rx_in := rx })

/-- Empty-bodied `while(busy(status));` over the pending status readings:
each evaluation of the condition reads the status register once. -/
def spin (busy : Nat → Bool) : List Nat → List Event → Option (List Nat × List Event)
  | [], _ => none
  | s :: sr, tr =>
    if busy s then spin busy sr (tr ++ [Event.rd_SPI_SR s])
    else some (sr, tr ++ [Event.rd_SPI_SR s])

/-- Statement `while(busy(SPI_SR));` executed on a machine. -/
def spin_while (busy : Nat → Bool) (m : Machine) : Option Machine :=
  (spin busy m.sr_in m.trace).map fun p => { m with sr_in := p.1, trace := p.2 }

/-! ## The firmware functions -/

/-- Source lines 89-101: `void set_baud(int port)`. -/
def set_baud (port : Nat) (m : Machine) : Option Machine :=
  let m := set_SPI_CR_REn false m
  let m := set_SPI_CR_SSel true m
  let m := set_tris_C m.SPI_CR m
  let m := write_PortC ((port ^^^ 0x13) % 256) m
  let m := write_PortC 0x00 m
  let m := write_PortC ((port ^^^ 0x30) % 256) m
  let m := write_PortC 0x01 m
  spin_while (fun s => !SPI_SR_TF_EF s) m

/-- Source lines 103-115: `int1 get_char(int port)`. -/
def get_char (port : Nat) (m : Machine) : Option (Bool × Machine) := do
  let m := emit (Event.call_get_char port) m
  let m := set_SPI_CR_REn true m
  let m := set_SPI_CR_SSel true m
  let m := set_tris_C m.SPI_CR m
  let m := write_PortC ((port ^^^ 0x60) % 256) m
  let m := write_PortC 0xFF m
  let m ← spin_while (fun s => !SPI_SR_TF_EF s) m
  let (v, m) ← read_PortC m
  let m := { m with SPI_DIO_H := v }
  let m ← spin_while (fun s => SPI_SR_RF_EF s) m
  let (v, m) ← read_PortC m
  let m := { m with SPI_DIO_L := v }
  let r := SPI_DIO_RRdy m && !SPI_DIO_RErr m
  some (r, emit (Event.ret_get_char port r) m)

/-- Source lines 121-127: the case conversion at the head of `put_char`. -/
def put_char_transform (m : Machine) : Machine :=
  if !RD_Ext_ASCII m then
    if m.SPI_DIO_L ≥ 0x41 && m.SPI_DIO_L ≤ 0x7A then
      if m.SPI_DIO_L ≤ 0x5A || m.SPI_DIO_L ≥ 0x61 then
        { m with SPI_DIO_L := (m.SPI_DIO_L ^^^ 0x20) % 256 }
      else m
    else m
  else m

/-- Source lines 117-138: `void put_char(int port)`. -/
def put_char (port : Nat) (m : Machine) : Option Machine :=
  let m := emit (Event.call_put_char port) m
  let m := put_char_transform m
  let m := set_SPI_CR_REn false m
  let m := set_SPI_CR_SSel true m
  let m := set_tris_C m.SPI_CR m
  let m := write_PortC ((port ^^^ 0x50) % 256) m
  let m := write_PortC m.SPI_DIO_L m
  spin_while (fun s => !SPI_SR_TF_EF s) m

/-- Source lines 140-144: `void xSPI_Manual(int Manual)`. -/
def xSPI_Manual (Manual : Nat) (m : Machine) : Machine :=
  let m :=
    if Manual ≠ 0 then { m with xSPI_CR := (m.xSPI_CR ||| 0x80) % 256 }
    else { m with xSPI_CR := m.xSPI_CR &&& 0x7F }
  set_tris_A m.xSPI_CR m

/-- Source lines 146-154: `void put_SPI_data24(int data[3])`.  The buffer is
passed as its three bytes `data[0]`, `data[1]`, `data[2]`; it is assumed not
to overlap the holding registers. -/
def put_SPI_data24 (data0 data1 data2 : Nat) (m : Machine) : Option Machine := do
  let m := set_SPI_CR_REn false m
  let m := set_tris_C m.SPI_CR m
  let m ← spin_while SPI_SR_TF_FF m
  let m := write_PortC data2 m
  let m ← spin_while SPI_SR_TF_FF m
  let m := write_PortC data1 m
  let m ← spin_while SPI_SR_TF_FF m
  some (write_PortC data0 m)

/-- Source lines 156-163: `void put_SPI_data16(int data[2])`, the buffer
passed as its two bytes. -/
def put_SPI_data16 (data0 data1 : Nat) (m : Machine) : Option Machine := do
  let m := set_SPI_CR_REn false m
  let m := set_tris_C m.SPI_CR m
  let m ← spin_while SPI_SR_TF_FF m
  let m := write_PortC data1 m
  let m ← spin_while SPI_SR_TF_FF m
  some (write_PortC data0 m)

/-- Source lines 165-171: `void put_SPI_data08(int data)`. -/
def put_SPI_data08 (data : Nat) (m : Machine) : Option Machine := do
  let m := set_SPI_CR_REn false m
  let m := set_tris_C m.SPI_CR m
  let m ← spin_while SPI_SR_TF_FF m
  some (write_PortC data m)

/-- Source lines 173-184: `void get_SPI_data16(void)`. -/
def get_SPI_data16 (m : Machine) : Option Machine := do
  let m ← spin_while (fun s => !SPI_SR_TF_EF s) m
  let m := set_SPI_CR_REn true m
  let m := set_tris_C m.SPI_CR m
  let m := write_PortC 0xFF m
  let m := write_PortC 0xFF m
  let m ← spin_while (fun s => !SPI_SR_TF_EF s) m
  let (v, m) ← read_PortC m
  let m := { m with SPI_DIO_H := v }
  let m ← spin_while (fun s => SPI_SR_RF_EF s) m
  let (v, m) ← read_PortC m
  some { m with SPI_DIO_L := v }

/-- Source lines 186-196: `void get_SPI_data08(void)`. -/
def get_SPI_data08 (m : Machine) : Option Machine := do
  let m ← spin_while (fun s => !SPI_SR_TF_EF s) m
  let m := set_SPI_CR_REn true m
  let m := set_tris_C m.SPI_CR m
  let m := write_PortC 0xFF m
  let m ← spin_while (fun s => !SPI_SR_TF_EF s) m
  let (v, m) ← read_PortC m
  some { m with SPI_DIO_L := v }

/-- Source lines 215-217 and 219-221: the statement
`if(get_char(port)) { put_char(port); }`. -/
def relay_channel (port : Nat) (m : Machine) : Option Machine :=
  (get_char port m).bind fun p => if p.1 then put_char port p.2 else some p.2

/-- Source lines 215-221: the body of `while(TRUE)` in `main`. -/
def relay_iter (m : Machine) : Option Machine :=
  (relay_channel COM0 m).bind (relay_channel COM1)

/-- The first `n` iterations of `while(TRUE)` in `main`. -/
def relay_loop : Nat → Machine → Option Machine
  | 0, m => some m
  | n + 1, m => relay_iter m >>= relay_loop n

/-- Source line 209: `while(--Dly_Cntr > 0);` on the 8-bit counter; `fuel`
bounds the number of evaluations of the condition. -/
def delay : Nat → Machine → Machine
  | 0, m => m
  | fuel + 1, m =>
    let m := { m with Dly_Cntr := (m.Dly_Cntr + 255) % 256 }
    if m.Dly_Cntr > 0 then delay fuel m else m

/-- Source lines 199-222: `void main()`, running the first `n` iterations of
its endless loop. -/
def main (n : Nat) (m : Machine) : Option Machine := do
  let m := set_tris_A 0x1F m
  let m := set_tris_B 0x1F m
  let m := { m with xSPI_CR := 0x1F }
  let m := set_tris_C 0x1E m
  let m := { m with SPI_CR := 0x1E }
  let m := { m with Dly_Cntr := 8 }
  let m := delay 256 m
  let m ← set_baud COM0 m
  let m ← set_baud COM1 m
  relay_loop n m

/-- The machine as `main` leaves the holding registers before its loop
(`SPI_CR = 0x1E`, `xSPI_CR = 0x1F`), with `SPI_DIO_L` holding `dio_l`, the
pending readings `sr` and `rx`, and an empty trace. -/
def booted (dio_l : Nat) (sr rx : List Nat) : Machine :=
  { SPI_CR := 0x1E, SPI_DIO_H := 0, SPI_DIO_L := dio_l, xSPI_CR := 0x1F, Dly_Cntr := 0,
    sr_in := sr, rx_in := rx, trace := [] }

/-! ## Trace projections -/

/-- Bytes written to `PortC`, in order. -/
def port_writes (tr : List Event) : List Nat :=
  tr.filterMap fun e => match e with
    | Event.wr_PortC v => some v
    | _ => none

/-- True on the ghost entries marking a call of `get_char` or `put_char`. -/
def is_call : Event → Bool
  | Event.call_get_char _ => true
  | Event.call_put_char _ => true
  | _ => false

/-- Calls of `get_char` and `put_char`, in order. -/
def calls (tr : List Event) : List Event := tr.filter is_call

/-- Results of the calls of `get_char`, in order, each with its channel. -/
def get_char_results (tr : List Event) : List (Nat × Bool) :=
  tr.filterMap fun e => match e with
    | Event.ret_get_char port r => some (port, r)
    | _ => none

/-- True when every write to `PortC` in the trace comes directly after a
read of the status register in which transmit-FIFO-full is clear. -/
def writes_follow_not_full : List Event → Bool
  | [] => true
  | Event.wr_PortC _ :: _ => false
  | Event.rd_SPI_SR s :: Event.wr_PortC _ :: es => !SPI_SR_TF_FF s && writes_follow_not_full es
  | _ :: es => writes_follow_not_full es

/-! ## Byte-level views of the source expressions -/

/-- Value of `SPI_CR` after `SPI_CR_REn = 0; SPI_CR_SSel = 1;`. -/
def cr_tx (cr : Nat) : Nat := bit_set (bit_clear cr 0) 1

/-- Value of `SPI_CR` after `SPI_CR_REn = 1; SPI_CR_SSel = 1;`. -/
def cr_rx (cr : Nat) : Nat := bit_set (bit_set cr 0) 1

/-- Source line 114: the value `get_char` returns, as a function of the byte
held in `SPI_DIO_H`. -/
def rx_valid (h : Nat) : Bool := bit_test h 2 && !bit_test h 0

/-- Source lines 121-127 as a function of the byte `b` held in `SPI_DIO_L`:
the byte `put_char` leaves there and transmits. -/
def transform (b : Nat) : Nat :=
  if !bit_test b 7 then
    if b ≥ 0x41 && b ≤ 0x7A then
      if b ≤ 0x5A || b ≥ 0x61 then (b ^^^ 0x20) % 256 else b
    else b
  else b

/-- Accesses of one returning call of `get_char` on `port` with `SPI_CR`
initially `cr`: the transmit spin reads `pre1` then `s1`, the first byte read
is `h`, the receive spin reads `pre2` then `s2`, the second byte read is
`l`. -/
def get_char_events (port cr : Nat) (pre1 : List Nat) (s1 : Nat) (pre2 : List Nat) (s2 : Nat)
    (h l : Nat) : List Event :=
  [Event.call_get_char port, Event.set_tris_C (cr_rx cr),
   Event.wr_PortC ((port ^^^ 0x60) % 256), Event.wr_PortC 0xFF] ++
  (pre1 ++ [s1]).map Event.rd_SPI_SR ++ [Event.rd_PortC (h % 256)] ++
  (pre2 ++ [s2]).map Event.rd_SPI_SR ++
  [Event.rd_PortC (l % 256), Event.ret_get_char port (rx_valid h)]

/-- Accesses of one returning call of `put_char` on `port` with `SPI_CR`
initially `cr` and `SPI_DIO_L` initially `b`: the transmit spin reads `pre`
then `s`. -/
def put_char_events (port cr b : Nat) (pre : List Nat) (s : Nat) : List Event :=
  [Event.call_put_char port, Event.set_tris_C (cr_tx cr),
   Event.wr_PortC ((port ^^^ 0x50) % 256), Event.wr_PortC (transform b)] ++
  (pre ++ [s]).map Event.rd_SPI_SR

/-! ## Environments of the relay loop -/

/-- What the peripheral presents to one returning call of `get_char`: the
status readings of the transmit spin (`pre1` then `s1`) and of the receive
spin (`pre2` then `s2`), and the two bytes read from `PortC` (`h` then
`l`). -/
structure Poll where
  pre1 : List Nat
  s1 : Nat
  pre2 : List Nat
  s2 : Nat
  h : Nat
  l : Nat

/-- Status readings consumed by the poll. -/
def Poll.status (p : Poll) : List Nat := p.pre1 ++ p.s1 :: (p.pre2 ++ [p.s2])

/-- Bytes read from `PortC` by the poll. -/
def Poll.bytes (p : Poll) : List Nat := [p.h, p.l]

/-- The poll releases both spins of `get_char` (transmit FIFO not empty on
`pre1`, empty on `s1`; receive FIFO empty on `pre2`, not empty on `s2`) and
its first byte does not show ready = 1 with error = 0. -/
def Poll.idle (p : Poll) : Bool :=
  p.pre1.all (fun x => !SPI_SR_TF_EF x) && SPI_SR_TF_EF p.s1 &&
  p.pre2.all (fun x => SPI_SR_RF_EF x) && !SPI_SR_RF_EF p.s2 &&
  !rx_valid p.h

/-! # Theorems -/

/-! ## Spin loops -/

/-- A spin over readings `pre ++ s :: rest`, busy on all of `pre` and released
by `s`, reads exactly `pre` and `s` and leaves `rest`. -/
theorem spin_released (busy : Nat → Bool) (pre : List Nat) (s : Nat) (rest : List Nat)
    (tr : List Event) (hpre : ∀ x ∈ pre, busy x = true) (hs : busy s = false) :
    spin busy (pre ++ s :: rest) tr
      = some (rest, tr ++ (pre ++ [s]).map Event.rd_SPI_SR) := by
  induction pre generalizing tr with
  | nil => simp [spin, hs]
  | cons x xs ih =>
    have hx : busy x = true := hpre x (by simp)
    have hxs : ∀ y ∈ xs, busy y = true := fun y hy => hpre y (by simp [hy])
    simp [spin, hx, ih _ hxs]

/-- A spin that returns has read a busy prefix and one releasing reading. -/
theorem spin_some (busy : Nat → Bool) (sr : List Nat) (tr : List Event)
    (rest : List Nat) (tr1 : List Event) (h : spin busy sr tr = some (rest, tr1)) :
    ∃ pre s, sr = pre ++ s :: rest ∧ (∀ x ∈ pre, busy x = true) ∧ busy s = false ∧
      tr1 = tr ++ (pre ++ [s]).map Event.rd_SPI_SR := by
  induction sr generalizing tr with
  | nil => simp [spin] at h
  | cons x xs ih =>
    by_cases hx : busy x = true
    · simp only [spin, hx, if_true] at h
      obtain ⟨pre, s, h1, h2, h3, h4⟩ := ih _ h
      refine ⟨x :: pre, s, by simp [h1], ?_, h3, by simp [h4]⟩
      intro y hy
      rcases List.mem_cons.mp hy with rfl | hy
      · exact hx
      · exact h2 y hy
    · simp only [spin, hx] at h
      simp at h
      refine ⟨[], x, by simp [h.1], by simp, by simpa using hx, by simp [h.2]⟩

/-- Machine-level form of `spin_released`. -/
theorem spin_while_released (busy : Nat → Bool) (m : Machine) (pre : List Nat) (s : Nat)
    (rest : List Nat) (hsr : m.sr_in = pre ++ s :: rest)
    (hpre : ∀ x ∈ pre, busy x = true) (hs : busy s = false) :
    spin_while busy m
      = some { m with sr_in := rest,
                      trace := m.trace ++ (pre ++ [s]).map Event.rd_SPI_SR } := by
  simp [spin_while, hsr, spin_released busy pre s rest m.trace hpre hs]

/-- Machine-level form of `spin_some`. -/
theorem spin_while_some (busy : Nat → Bool) (m m1 : Machine)
    (h : spin_while busy m = some m1) :
    ∃ pre s rest, m.sr_in = pre ++ s :: rest ∧ (∀ x ∈ pre, busy x = true) ∧
      busy s = false ∧
      m1 = { m with sr_in := rest,
                    trace := m.trace ++ (pre ++ [s]).map Event.rd_SPI_SR } := by
  unfold spin_while at h
  rcases hsp : spin busy m.sr_in m.trace with _ | ⟨rest, tr1⟩
  · simp [hsp] at h
  · obtain ⟨pre, s, h1, h2, h3, h4⟩ := spin_some busy _ _ _ _ hsp
    refine ⟨pre, s, rest, h1, h2, h3, ?_⟩
    simp [hsp] at h
    rw [← h, h4]

/-! ## Functional descriptions of the firmware functions -/

/-- Reducing a reading to 8 bits keeps its bits 0 to 7. -/
theorem bit_test_mod_256 (h n : Nat) (hn : n < 8) :
    bit_test (h % 256) n = bit_test h n := by
  unfold bit_test
  rw [show (256 : Nat) = 2 ^ 8 by norm_num, Nat.testBit_mod_two_pow]
  simp [hn]

/-- The conversion touches `SPI_DIO_L` only, through `transform`. -/
theorem put_char_transform_eq (m : Machine) :
    put_char_transform m = { m with SPI_DIO_L := transform m.SPI_DIO_L } := by
  unfold put_char_transform transform RD_Ext_ASCII
  split_ifs <;> rfl

/-- With the transmit FIFO reported non-empty on `pre` and empty on `s`,
`set_baud` returns after the accesses listed. -/
theorem set_baud_returns (port : Nat) (m : Machine) (pre : List Nat) (s : Nat)
    (rest : List Nat) (hsr : m.sr_in = pre ++ s :: rest)
    (hpre : ∀ x ∈ pre, SPI_SR_TF_EF x = false) (hs : SPI_SR_TF_EF s = true) :
    set_baud port m
      = some { m with
          SPI_CR := cr_tx m.SPI_CR,
          sr_in := rest,
          trace := m.trace ++
            [Event.set_tris_C (cr_tx m.SPI_CR),
             Event.wr_PortC ((port ^^^ 0x13) % 256), Event.wr_PortC 0x00,
             Event.wr_PortC ((port ^^^ 0x30) % 256), Event.wr_PortC 0x01] ++
            (pre ++ [s]).map Event.rd_SPI_SR } := by
  unfold set_baud
  rw [spin_while_released (fun s => !SPI_SR_TF_EF s) _ pre s rest
    (by simpa [write_PortC, set_tris_C, emit, set_SPI_CR_SSel, set_SPI_CR_REn] using hsr)
    (by intro x hx; simp [hpre x hx]) (by simp [hs])]
  simp [write_PortC, set_tris_C, emit, set_SPI_CR_SSel, set_SPI_CR_REn, bit_write, cr_tx]

/-- With the transmit FIFO reported non-empty on `pre` and empty on `s`,
`put_char` returns after the accesses listed. -/
theorem put_char_returns (port : Nat) (m : Machine) (pre : List Nat) (s : Nat)
    (rest : List Nat) (hsr : m.sr_in = pre ++ s :: rest)
    (hpre : ∀ x ∈ pre, SPI_SR_TF_EF x = false) (hs : SPI_SR_TF_EF s = true) :
    put_char port m
      = some { m with
          SPI_CR := cr_tx m.SPI_CR,
          SPI_DIO_L := transform m.SPI_DIO_L,
          sr_in := rest,
          trace := m.trace ++
            [Event.call_put_char port, Event.set_tris_C (cr_tx m.SPI_CR),
             Event.wr_PortC ((port ^^^ 0x50) % 256),
             Event.wr_PortC (transform m.SPI_DIO_L)] ++
            (pre ++ [s]).map Event.rd_SPI_SR } := by
  unfold put_char
  rw [spin_while_released (fun s => !SPI_SR_TF_EF s) _ pre s rest
    (by simpa [write_PortC, set_tris_C, emit, set_SPI_CR_SSel, set_SPI_CR_REn,
      put_char_transform_eq] using hsr)
    (by intro x hx; simp [hpre x hx]) (by simp [hs])]
  simp [write_PortC, set_tris_C, emit, set_SPI_CR_SSel, set_SPI_CR_REn, bit_write, cr_tx,
    put_char_transform_eq]

/-- With the transmit FIFO reported non-empty on `pre1` and empty on `s1`,
then the receive FIFO reported empty on `pre2` and non-empty on `s2`, and
the peripheral presenting `h` then `l` on `PortC`, `get_char` returns
`rx_valid h` after the accesses listed. -/
theorem get_char_returns (port : Nat) (m : Machine) (pre1 : List Nat) (s1 : Nat)
    (pre2 : List Nat) (s2 : Nat) (rest : List Nat) (h l : Nat) (rx : List Nat)
    (hsr : m.sr_in = pre1 ++ s1 :: (pre2 ++ s2 :: rest))
    (hrx : m.rx_in = h :: l :: rx)
    (hpre1 : ∀ x ∈ pre1, SPI_SR_TF_EF x = false) (hs1 : SPI_SR_TF_EF s1 = true)
    (hpre2 : ∀ x ∈ pre2, SPI_SR_RF_EF x = true) (hs2 : SPI_SR_RF_EF s2 = false) :
    get_char port m
      = some (rx_valid h, { m with
          SPI_CR := cr_rx m.SPI_CR,
          SPI_DIO_H := h % 256,
          SPI_DIO_L := l % 256,
          sr_in := rest,
          rx_in := rx,
          trace := m.trace ++
            [Event.call_get_char port, Event.set_tris_C (cr_rx m.SPI_CR),
             Event.wr_PortC ((port ^^^ 0x60) % 256), Event.wr_PortC 0xFF] ++
            (pre1 ++ [s1]).map Event.rd_SPI_SR ++ [Event.rd_PortC (h % 256)] ++
            (pre2 ++ [s2]).map Event.rd_SPI_SR ++
            [Event.rd_PortC (l % 256), Event.ret_get_char port (rx_valid h)] }) := by
  unfold get_char
  simp only [Option.bind_eq_bind]
  rw [spin_while_released (fun s => !SPI_SR_TF_EF s) _ pre1 s1 (pre2 ++ s2 :: rest)
    (by simpa [write_PortC, set_tris_C, emit, set_SPI_CR_SSel, set_SPI_CR_REn] using hsr)
    (by intro x hx; simp [hpre1 x hx]) (by simp [hs1])]
  simp only [Option.some_bind, read_PortC, write_PortC, set_tris_C, emit, set_SPI_CR_SSel,
    set_SPI_CR_REn, hrx]
  rw [spin_while_released SPI_SR_RF_EF _ pre2 s2 rest rfl hpre2 hs2]
  simp [rx_valid, SPI_DIO_RRdy, SPI_DIO_RErr, bit_test_mod_256, bit_write, cr_rx]

/-- A read of `PortC` that returns has consumed the head of `rx_in`. -/
theorem read_PortC_some (m m1 : Machine) (v : Nat) (h : read_PortC m = some (v, m1)) :
    ∃ x rx, m.rx_in = x :: rx ∧ v = x % 256 ∧
      m1 = emit (Event.rd_PortC (x % 256)) { m with rx_in := rx } := by
  unfold read_PortC at h
  rcases hrx : m.rx_in with _ | ⟨x, rx⟩
  · simp [hrx] at h
  · simp only [hrx, Option.some.injEq, Prod.mk.injEq] at h
    exact ⟨x, rx, rfl, h.1.symm, h.2.symm⟩

/-- When `get_char` returns, the pending readings had the shape assumed in
`get_char_returns`. -/
theorem get_char_some (port : Nat) (m m1 : Machine) (r : Bool)
    (h : get_char port m = some (r, m1)) :
    ∃ pre1 s1 pre2 s2 rest h l rx,
      m.sr_in = pre1 ++ s1 :: (pre2 ++ s2 :: rest) ∧ m.rx_in = h :: l :: rx ∧
      (∀ x ∈ pre1, SPI_SR_TF_EF x = false) ∧ SPI_SR_TF_EF s1 = true ∧
      (∀ x ∈ pre2, SPI_SR_RF_EF x = true) ∧ SPI_SR_RF_EF s2 = false := by
  unfold get_char at h
  simp only [Option.bind_eq_bind, Option.bind_eq_some] at h
  obtain ⟨ma, hsp1, ⟨v1, mb⟩, hrd1, mc, hsp2, ⟨v2, md⟩, hrd2, -⟩ := h
  obtain ⟨pre1, s1, rest1, e1, p1, q1, rfl⟩ := spin_while_some _ _ _ hsp1
  obtain ⟨x1, rx1, f1, -, rfl⟩ := read_PortC_some _ _ _ hrd1
  obtain ⟨pre2, s2, rest2, e2, p2, q2, rfl⟩ := spin_while_some _ _ _ hsp2
  obtain ⟨x2, rx2, f2, -, rfl⟩ := read_PortC_some _ _ _ hrd2
  simp only [write_PortC, set_tris_C, emit, set_SPI_CR_SSel, set_SPI_CR_REn] at e1 f1 e2 f2
  refine ⟨pre1, s1, pre2, s2, rest2, x1, x2, rx2, ?_, ?_, ?_, ?_, p2, q2⟩
  · rw [e1, e2]
  · rw [f1, f2]
  · intro x hx
    simpa using p1 x hx
  · simpa using q1

/-- When `put_char` returns, the transmit FIFO was eventually reported
empty. -/
theorem put_char_some (port : Nat) (m m1 : Machine) (h : put_char port m = some m1) :
    ∃ pre s rest, m.sr_in = pre ++ s :: rest ∧
      (∀ x ∈ pre, SPI_SR_TF_EF x = false) ∧ SPI_SR_TF_EF s = true := by
  unfold put_char at h
  obtain ⟨pre, s, rest, e, p, q, -⟩ := spin_while_some _ _ _ h
  simp only [write_PortC, set_tris_C, emit, set_SPI_CR_SSel, set_SPI_CR_REn,
    put_char_transform_eq] at e
  exact ⟨pre, s, rest, e, fun x hx => by simpa using p x hx, by simpa using q⟩

/-- When `set_baud` returns, the transmit FIFO was eventually reported
empty. -/
theorem set_baud_some (port : Nat) (m m1 : Machine) (h : set_baud port m = some m1) :
    ∃ pre s rest, m.sr_in = pre ++ s :: rest ∧
      (∀ x ∈ pre, SPI_SR_TF_EF x = false) ∧ SPI_SR_TF_EF s = true := by
  unfold set_baud at h
  obtain ⟨pre, s, rest, e, p, q, -⟩ := spin_while_some _ _ _ h
  simp only [write_PortC, set_tris_C, emit, set_SPI_CR_SSel, set_SPI_CR_REn] at e
  exact ⟨pre, s, rest, e, fun x hx => by simpa using p x hx, by simpa using q⟩

/-- Status reads write nothing to `PortC`. -/
theorem port_writes_status (l : List Nat) : port_writes (l.map Event.rd_SPI_SR) = [] := by
  induction l with
  | nil => rfl
  | cons x xs ih => simp [port_writes]

/-- Port writes of a concatenation. -/
theorem port_writes_append (a b : List Event) :
    port_writes (a ++ b) = port_writes a ++ port_writes b := by
  simp [port_writes]

/-- On a letter the conversion toggles bit `0x20`. -/
theorem transform_letter (b : Nat)
    (hb : (0x41 ≤ b ∧ b ≤ 0x5A) ∨ (0x61 ≤ b ∧ b ≤ 0x7A)) :
    transform b = b ^^^ 0x20 := by
  rcases hb with ⟨h1, h2⟩ | ⟨h1, h2⟩ <;> interval_cases b <;> decide

/-- Off the letters the conversion is the identity. -/
theorem transform_other (b : Nat)
    (hb : b < 0x41 ∨ (0x5B ≤ b ∧ b ≤ 0x60) ∨ (0x7B ≤ b ∧ b ≤ 0x7F) ∨ 0x80 ≤ b) :
    transform b = b := by
  unfold transform
  split_ifs with h1 h2 h3
  · simp at h2 h3
    omega
  · rfl
  · rfl
  · rfl

/-- The conversion is an involution on every byte. -/
theorem transform_transform (b : Nat) : transform (transform b) = b := by
  by_cases hb : (0x41 ≤ b ∧ b ≤ 0x5A) ∨ (0x61 ≤ b ∧ b ≤ 0x7A)
  · rcases hb with ⟨h1, h2⟩ | ⟨h1, h2⟩ <;> interval_cases b <;> decide
  · have hb2 : b < 0x41 ∨ (0x5B ≤ b ∧ b ≤ 0x60) ∨ (0x7B ≤ b ∧ b ≤ 0x7F) ∨ 0x80 ≤ b := by
      omega
    rw [transform_other b hb2, transform_other b hb2]

/-! ## Claims about the case conversion in `put_char` -/

/-- C1: for every ASCII letter `b` (0x41..0x5A or 0x61..0x7A, so bit 7 is
clear) held in `SPI_DIO_L` when `put_char` is called, the conversion replaces
it by `b XOR 0x20`, and `put_char` returns having written to the port the
command byte and then that value. -/
theorem put_char_letter_case_flipped (port b : Nat) (m : Machine) (pre : List Nat) (s : Nat)
    (rest : List Nat)
    (hb : (0x41 ≤ b ∧ b ≤ 0x5A) ∨ (0x61 ≤ b ∧ b ≤ 0x7A))
    (hL : m.SPI_DIO_L = b)
    (hsr : m.sr_in = pre ++ s :: rest)
    (hpre : ∀ x ∈ pre, SPI_SR_TF_EF x = false) (hs : SPI_SR_TF_EF s = true) :
    bit_test b 7 = false ∧
    (put_char_transform m).SPI_DIO_L = b ^^^ 0x20 ∧
    ∃ m1, put_char port m = some m1 ∧ m1.SPI_DIO_L = b ^^^ 0x20 ∧
      m1.trace = m.trace ++
        [Event.call_put_char port, Event.set_tris_C (cr_tx m.SPI_CR),
         Event.wr_PortC ((port ^^^ 0x50) % 256), Event.wr_PortC (b ^^^ 0x20)] ++
        (pre ++ [s]).map Event.rd_SPI_SR ∧
      port_writes m1.trace = port_writes m.trace ++ [(port ^^^ 0x50) % 256, b ^^^ 0x20] := by
  have ht : transform m.SPI_DIO_L = b ^^^ 0x20 := by rw [hL]; exact transform_letter b hb
  refine ⟨?_, ?_, ?_⟩
  · rcases hb with ⟨h1, h2⟩ | ⟨h1, h2⟩ <;> interval_cases b <;> decide
  · rw [put_char_transform_eq]; exact ht
  · refine ⟨_, put_char_returns port m pre s rest hsr hpre hs, ?_, ?_, ?_⟩
    · exact ht
    · simp [ht]
    · simp only [ht, port_writes_append, port_writes_status]
      simp [port_writes]

/-- C2: for every `b` that is not an ASCII letter with bit 7 clear (below
0x41, in 0x5B..0x60, in 0x7B..0x7F, or at least 0x80) held in `SPI_DIO_L`,
the conversion leaves the machine as it is and `put_char` returns having
written the command byte and then `b` itself. -/
theorem put_char_other_unchanged (port b : Nat) (m : Machine) (pre : List Nat) (s : Nat)
    (rest : List Nat)
    (hb : b < 0x41 ∨ (0x5B ≤ b ∧ b ≤ 0x60) ∨ (0x7B ≤ b ∧ b ≤ 0x7F) ∨ 0x80 ≤ b)
    (hL : m.SPI_DIO_L = b)
    (hsr : m.sr_in = pre ++ s :: rest)
    (hpre : ∀ x ∈ pre, SPI_SR_TF_EF x = false) (hs : SPI_SR_TF_EF s = true) :
    put_char_transform m = m ∧
    ∃ m1, put_char port m = some m1 ∧ m1.SPI_DIO_L = b ∧
      m1.trace = m.trace ++
        [Event.call_put_char port, Event.set_tris_C (cr_tx m.SPI_CR),
         Event.wr_PortC ((port ^^^ 0x50) % 256), Event.wr_PortC b] ++
        (pre ++ [s]).map Event.rd_SPI_SR ∧
      port_writes m1.trace = port_writes m.trace ++ [(port ^^^ 0x50) % 256, b] := by
  have ht : transform m.SPI_DIO_L = b := by rw [hL]; exact transform_other b hb
  refine ⟨?_, ?_⟩
  · rw [put_char_transform_eq, ht, ← hL]
  · refine ⟨_, put_char_returns port m pre s rest hsr hpre hs, ?_, ?_, ?_⟩
    · exact ht
    · simp [ht]
    · simp only [ht, port_writes_append, port_writes_status]
      simp [port_writes]

/-- Instance of C1: `'a'` received, `'A'` sent on COM0. -/
theorem put_char_letter_case_flipped_witness :
    ((0x41 ≤ 0x61 ∧ 0x61 ≤ 0x5A) ∨ (0x61 ≤ 0x61 ∧ 0x61 ≤ 0x7A)) ∧
    (∀ x ∈ [0, 2], SPI_SR_TF_EF x = false) ∧ SPI_SR_TF_EF 1 = true ∧
    ∃ m1, put_char COM0 (booted 0x61 [0, 2, 1, 7] []) = some m1 ∧ m1.SPI_DIO_L = 0x41 ∧
      port_writes m1.trace = [0x50, 0x41] := by
  obtain ⟨_, _, m1, h1, h2, _, h3⟩ :=
    put_char_letter_case_flipped COM0 0x61 (booted 0x61 [0, 2, 1, 7] []) [0, 2] 1 [7]
      (by decide) rfl rfl (by decide) (by decide)
  exact ⟨by decide, by decide, by decide, m1, h1, h2.trans (by decide), h3.trans (by decide)⟩

/-- Instance of C2: `'5'` (0x35) is sent as 0x35. -/
theorem put_char_other_unchanged_witness :
    (0x35 < 0x41 ∨ (0x5B ≤ 0x35 ∧ 0x35 ≤ 0x60) ∨ (0x7B ≤ 0x35 ∧ 0x35 ≤ 0x7F) ∨ 0x80 ≤ 0x35) ∧
    (∀ x ∈ [0, 2], SPI_SR_TF_EF x = false) ∧ SPI_SR_TF_EF 1 = true ∧
    ∃ m1, put_char COM1 (booted 0x35 [0, 2, 1, 7] []) = some m1 ∧ m1.SPI_DIO_L = 0x35 ∧
      port_writes m1.trace = [0xD0, 0x35] := by
  obtain ⟨_, m1, h1, h2, _, h3⟩ :=
    put_char_other_unchanged COM1 0x35 (booted 0x35 [0, 2, 1, 7] []) [0, 2] 1 [7]
      (by decide) rfl rfl (by decide) (by decide)
  exact ⟨by decide, by decide, by decide, m1, h1, h2, h3.trans (by decide)⟩

/-- C10: the conversion applied twice gives back the byte, for every `b`
(letters are toggled twice, all other bytes are left alone twice); on the
machine the conversion applied twice restores the state, and two consecutive
calls of `put_char` that both return leave `SPI_DIO_L` at its original
value. -/
theorem transform_twice_restores (b p q : Nat) (m : Machine) (pre1 : List Nat) (s1 : Nat)
    (pre2 : List Nat) (s2 : Nat) (rest : List Nat) :
    transform (transform b) = b ∧
    put_char_transform (put_char_transform m) = m ∧
    (m.sr_in = pre1 ++ s1 :: (pre2 ++ s2 :: rest) →
      (∀ x ∈ pre1, SPI_SR_TF_EF x = false) → SPI_SR_TF_EF s1 = true →
      (∀ x ∈ pre2, SPI_SR_TF_EF x = false) → SPI_SR_TF_EF s2 = true →
      ∃ m1 m2, put_char p m = some m1 ∧ put_char q m1 = some m2 ∧
        m1.SPI_DIO_L = transform m.SPI_DIO_L ∧ m2.SPI_DIO_L = m.SPI_DIO_L) := by
  refine ⟨transform_transform b, ?_, ?_⟩
  · rw [put_char_transform_eq, put_char_transform_eq]
    simp [transform_transform]
  · intro hsr hpre1 hs1 hpre2 hs2
    refine ⟨_, _, put_char_returns p m pre1 s1 _ hsr hpre1 hs1,
      put_char_returns q _ pre2 s2 rest rfl hpre2 hs2, rfl, ?_⟩
    simp [transform_transform]

/-- Instance of C10: `'q'` relayed twice is `'q'` again. -/
theorem transform_twice_restores_witness :
    (∀ x ∈ [0], SPI_SR_TF_EF x = false) ∧ SPI_SR_TF_EF 1 = true ∧
    (∀ x ∈ [2, 4], SPI_SR_TF_EF x = false) ∧ SPI_SR_TF_EF 3 = true ∧
    transform (transform 0x71) = 0x71 ∧
    ∃ m1 m2, put_char COM0 (booted 0x71 [0, 1, 2, 4, 3] []) = some m1 ∧
      put_char COM1 m1 = some m2 ∧ m1.SPI_DIO_L = 0x51 ∧ m2.SPI_DIO_L = 0x71 := by
  have h := transform_twice_restores 0x71 COM0 COM1 (booted 0x71 [0, 1, 2, 4, 3] [])
    [0] 1 [2, 4] 3 []
  obtain ⟨m1, m2, h1, h2, h3, h4⟩ := h.2.2 rfl (by decide) (by decide) (by decide) (by decide)
  exact ⟨by decide, by decide, by decide, by decide, h.1, m1, m2, h1, h2,
    h3.trans (by decide), h4⟩

/-! ## Claims about `get_char` and `set_baud` -/

/-- C3: whenever the peripheral releases the two spins of `get_char` and
presents the bytes `h` and `l` to its two reads of `PortC`, `get_char`
returns, with `h` in `SPI_DIO_H` and `l` in `SPI_DIO_L`, and the value
returned is true exactly when `SPI_DIO_RRdy` (bit 2 of register 0x1D) is 1
and `SPI_DIO_RErr` (bit 0 of register 0x1D) is 0. -/
theorem get_char_true_iff_ready_no_error (port : Nat) (m : Machine) (pre1 : List Nat)
    (s1 : Nat) (pre2 : List Nat) (s2 : Nat) (rest : List Nat) (h l : Nat) (rx : List Nat)
    (hsr : m.sr_in = pre1 ++ s1 :: (pre2 ++ s2 :: rest))
    (hrx : m.rx_in = h :: l :: rx)
    (hpre1 : ∀ x ∈ pre1, SPI_SR_TF_EF x = false) (hs1 : SPI_SR_TF_EF s1 = true)
    (hpre2 : ∀ x ∈ pre2, SPI_SR_RF_EF x = true) (hs2 : SPI_SR_RF_EF s2 = false) :
    ∃ r m1, get_char port m = some (r, m1) ∧
      m1.SPI_DIO_H = h % 256 ∧ m1.SPI_DIO_L = l % 256 ∧
      SPI_DIO_RRdy m1 = h.testBit 2 ∧ SPI_DIO_RErr m1 = h.testBit 0 ∧
      (r = true ↔ (SPI_DIO_RRdy m1 = true ∧ SPI_DIO_RErr m1 = false)) := by
  refine ⟨_, _, get_char_returns port m pre1 s1 pre2 s2 rest h l rx hsr hrx hpre1 hs1 hpre2 hs2,
    rfl, rfl, ?_, ?_, ?_⟩
  · exact bit_test_mod_256 h 2 (by norm_num)
  · exact bit_test_mod_256 h 0 (by norm_num)
  · simp [rx_valid, SPI_DIO_RRdy, SPI_DIO_RErr, bit_test_mod_256]

/-- Instances of C3, one for each combination of the two flags in the first
captured byte: 0x00 (neither), 0x01 (error only), 0x04 (ready only), 0x05
(both). -/
theorem get_char_true_iff_ready_no_error_witness :
    (∀ x ∈ [0, 2], SPI_SR_TF_EF x = false) ∧ SPI_SR_TF_EF 1 = true ∧
    (∀ x ∈ [4], SPI_SR_RF_EF x = true) ∧ SPI_SR_RF_EF 0 = false ∧
    (get_char COM0 (booted 0 [0, 2, 1, 4, 0] [0x00, 0x61])).map Prod.fst = some false ∧
    (get_char COM0 (booted 0 [0, 2, 1, 4, 0] [0x01, 0x61])).map Prod.fst = some false ∧
    (get_char COM0 (booted 0 [0, 2, 1, 4, 0] [0x04, 0x61])).map Prod.fst = some true ∧
    (get_char COM0 (booted 0 [0, 2, 1, 4, 0] [0x05, 0x61])).map Prod.fst = some false := by
  refine ⟨by decide, by decide, by decide, by decide, ?_, ?_, ?_, ?_⟩
  · obtain ⟨r, m1, h1, _, _, h4, _, h6⟩ :=
      get_char_true_iff_ready_no_error COM0 (booted 0 [0, 2, 1, 4, 0] [0x00, 0x61])
        [0, 2] 1 [4] 0 [] 0x00 0x61 [] rfl rfl (by decide) (by decide) (by decide) (by decide)
    have hr : r = false := by
      cases r with
      | false => rfl
      | true => exact absurd ((h6.mp rfl).1.symm.trans h4) (by decide)
    simp [h1, hr]
  · obtain ⟨r, m1, h1, _, _, h4, _, h6⟩ :=
      get_char_true_iff_ready_no_error COM0 (booted 0 [0, 2, 1, 4, 0] [0x01, 0x61])
        [0, 2] 1 [4] 0 [] 0x01 0x61 [] rfl rfl (by decide) (by decide) (by decide) (by decide)
    have hr : r = false := by
      cases r with
      | false => rfl
      | true => exact absurd ((h6.mp rfl).1.symm.trans h4) (by decide)
    simp [h1, hr]
  · obtain ⟨r, m1, h1, _, _, h4, h5, h6⟩ :=
      get_char_true_iff_ready_no_error COM0 (booted 0 [0, 2, 1, 4, 0] [0x04, 0x61])
        [0, 2] 1 [4] 0 [] 0x04 0x61 [] rfl rfl (by decide) (by decide) (by decide) (by decide)
    have hr : r = true := h6.mpr ⟨h4.trans (by decide), h5.trans (by decide)⟩
    simp [h1, hr]
  · obtain ⟨r, m1, h1, _, _, _, h5, h6⟩ :=
      get_char_true_iff_ready_no_error COM0 (booted 0 [0, 2, 1, 4, 0] [0x05, 0x61])
        [0, 2] 1 [4] 0 [] 0x05 0x61 [] rfl rfl (by decide) (by decide) (by decide) (by decide)
    have hr : r = false := by
      cases r with
      | false => rfl
      | true => exact absurd ((h6.mp rfl).2.symm.trans h5) (by decide)
    simp [h1, hr]

/-- C4 as stated fails for COM1: the third byte `set_baud(COM1)` writes is
`0x80 XOR 0x30 = 0xB0`, not `0x60`. -/
theorem set_baud_COM1_writes_counterexample :
    (set_baud COM1 (booted 0 [1] [])).map (fun m => port_writes m.trace)
      = some [0x93, 0x00, 0xB0, 0x01] ∧
    (set_baud COM1 (booted 0 [1] [])).map (fun m => port_writes m.trace)
      ≠ some [0x93, 0x00, 0x60, 0x01] := by
  decide

/-- C4, amended: whenever the transmit FIFO is eventually reported empty,
`set_baud` returns having written to `PortC` exactly the four bytes
`port XOR 0x13`, `0x00`, `port XOR 0x30`, `0x01`, which depend on the
channel identifier only; for COM0 they are 0x13, 0x00, 0x30, 0x01 and for
COM1 they are 0x93, 0x00, 0xB0, 0x01. -/
theorem set_baud_writes (port : Nat) (m : Machine) (pre : List Nat) (s : Nat)
    (rest : List Nat) (hsr : m.sr_in = pre ++ s :: rest)
    (hpre : ∀ x ∈ pre, SPI_SR_TF_EF x = false) (hs : SPI_SR_TF_EF s = true) :
    ∃ m1 new, set_baud port m = some m1 ∧ m1.trace = m.trace ++ new ∧
      port_writes new = [(port ^^^ 0x13) % 256, 0x00, (port ^^^ 0x30) % 256, 0x01] ∧
      (port = COM0 → port_writes new = [0x13, 0x00, 0x30, 0x01]) ∧
      (port = COM1 → port_writes new = [0x93, 0x00, 0xB0, 0x01]) := by
  have hw : port_writes
      ([Event.set_tris_C (cr_tx m.SPI_CR),
        Event.wr_PortC ((port ^^^ 0x13) % 256), Event.wr_PortC 0x00,
        Event.wr_PortC ((port ^^^ 0x30) % 256), Event.wr_PortC 0x01] ++
        (pre ++ [s]).map Event.rd_SPI_SR)
      = [(port ^^^ 0x13) % 256, 0x00, (port ^^^ 0x30) % 256, 0x01] := by
    rw [port_writes_append, port_writes_status]
    simp [port_writes]
  refine ⟨_, _, set_baud_returns port m pre s rest hsr hpre hs, ?_, hw, ?_, ?_⟩
  · simp
  · intro hp
    rw [hw, hp]
    decide
  · intro hp
    rw [hw, hp]
    decide

/-- Instance of the amended C4 on both channels. -/
theorem set_baud_writes_witness :
    (∀ x ∈ [0, 2], SPI_SR_TF_EF x = false) ∧ SPI_SR_TF_EF 1 = true ∧
    (∃ m1, set_baud COM0 (booted 0 [0, 2, 1] []) = some m1 ∧
      port_writes m1.trace = [0x13, 0x00, 0x30, 0x01]) ∧
    (∃ m1, set_baud COM1 (booted 0 [0, 2, 1] []) = some m1 ∧
      port_writes m1.trace = [0x93, 0x00, 0xB0, 0x01]) := by
  refine ⟨by decide, by decide, ?_, ?_⟩
  · obtain ⟨m1, new, h1, h2, _, h4, _⟩ :=
      set_baud_writes COM0 (booted 0 [0, 2, 1] []) [0, 2] 1 [] rfl (by decide) (by decide)
    refine ⟨m1, h1, ?_⟩
    rw [h2, port_writes_append, h4 rfl]
    rfl
  · obtain ⟨m1, new, h1, h2, _, _, h5⟩ :=
      set_baud_writes COM1 (booted 0 [0, 2, 1] []) [0, 2] 1 [] rfl (by decide) (by decide)
    refine ⟨m1, h1, ?_⟩
    rw [h2, port_writes_append, h5 rfl]
    rfl

/-- C7 as stated fails: two runs of `get_char` from the same state that
differ only in the first captured byte (0x04 against 0x00, same data byte
0x61) return different booleans, because `SPI_DIO_RRdy` and `SPI_DIO_RErr`
are bits of `SPI_DIO_H`. -/
theorem get_char_first_byte_counterexample :
    (get_char COM0 (booted 0 [1, 0] [0x04, 0x61])).map Prod.fst = some true ∧
    (get_char COM0 (booted 0 [1, 0] [0x00, 0x61])).map Prod.fst = some false := by
  decide

/-- C7, amended: the byte `get_char` captures first, into `SPI_DIO_H`, is
read by the return expression through its bits 2 and 0 only: two runs of
`get_char` on the same channel from the same state that differ only in that
first captured byte (same second, data byte), the two first bytes agreeing in
bit 2 and in bit 0, return the same boolean (or both fail to return). -/
theorem get_char_result_from_status_bits (port : Nat) (m : Machine) (h1 h2 l : Nat)
    (rx : List Nat) (hrx : m.rx_in = h1 :: l :: rx)
    (hbit2 : h1.testBit 2 = h2.testBit 2) (hbit0 : h1.testBit 0 = h2.testBit 0) :
    (get_char port m).map Prod.fst
      = (get_char port { m with rx_in := h2 :: l :: rx }).map Prod.fst := by
  have hv : rx_valid h1 = rx_valid h2 := by
    simp only [rx_valid, bit_test, hbit2, hbit0]
  by_cases hd : ∃ pre1 s1 pre2 s2 rest,
      m.sr_in = pre1 ++ s1 :: (pre2 ++ s2 :: rest) ∧
      (∀ x ∈ pre1, SPI_SR_TF_EF x = false) ∧ SPI_SR_TF_EF s1 = true ∧
      (∀ x ∈ pre2, SPI_SR_RF_EF x = true) ∧ SPI_SR_RF_EF s2 = false
  · obtain ⟨pre1, s1, pre2, s2, rest, e, p1, q1, p2, q2⟩ := hd
    rw [get_char_returns port m pre1 s1 pre2 s2 rest h1 l rx e hrx p1 q1 p2 q2,
      get_char_returns port { m with rx_in := h2 :: l :: rx } pre1 s1 pre2 s2 rest h2 l rx
        e rfl p1 q1 p2 q2]
    simp only [Option.map_some', Option.some.injEq]
    simpa [rx_valid, bit_test_mod_256] using hv
  · have hn1 : get_char port m = none := by
      rcases hg : get_char port m with _ | ⟨r, m1⟩
      · rfl
      · obtain ⟨pre1, s1, pre2, s2, rest, -, -, -, e, -, p1, q1, p2, q2⟩ :=
          get_char_some port m m1 r hg
        exact absurd ⟨pre1, s1, pre2, s2, rest, e, p1, q1, p2, q2⟩ hd
    have hn2 : get_char port { m with rx_in := h2 :: l :: rx } = none := by
      rcases hg : get_char port { m with rx_in := h2 :: l :: rx } with _ | ⟨r, m1⟩
      · rfl
      · obtain ⟨pre1, s1, pre2, s2, rest, -, -, -, e, -, p1, q1, p2, q2⟩ :=
          get_char_some port _ m1 r hg
        exact absurd ⟨pre1, s1, pre2, s2, rest, e, p1, q1, p2, q2⟩ hd
    rw [hn1, hn2]

/-- Instance of the amended C7: first bytes 0x04 and 0xFE agree in bits 2
and 0, and both runs return true. -/
theorem get_char_result_from_status_bits_witness :
    Nat.testBit 0x04 2 = Nat.testBit 0xFE 2 ∧ Nat.testBit 0x04 0 = Nat.testBit 0xFE 0 ∧
    (get_char COM1 (booted 0 [1, 0] [0x04, 0x61])).map Prod.fst = some true ∧
    (get_char COM1 (booted 0 [1, 0] [0xFE, 0x61])).map Prod.fst = some true := by
  have h := get_char_result_from_status_bits COM1 (booted 0 [1, 0] [0x04, 0x61]) 0x04 0xFE
    0x61 [] rfl (by decide) (by decide)
  have h1 : (get_char COM1 (booted 0 [1, 0] [0x04, 0x61])).map Prod.fst = some true := by
    decide
  exact ⟨by decide, by decide, h1, h.symm.trans h1⟩

/-! ## Frame of the bit writes -/

/-- Bits of a byte after one of them is cleared. -/
theorem testBit_bit_clear (r n i : Nat) (hn : n < 8) (hi : i < 8) :
    (bit_clear r n).testBit i = (r.testBit i && decide (i ≠ n)) := by
  unfold bit_clear
  rw [Nat.testBit_land]
  congr 1
  interval_cases n <;> interval_cases i <;> decide

/-- Bits of a byte after one of them is set. -/
theorem testBit_bit_set (r n i : Nat) (hn : n < 8) (hi : i < 8) :
    (bit_set r n).testBit i = (r.testBit i || decide (i = n)) := by
  have h := bit_test_mod_256 (r ||| 1 <<< n) i hi
  unfold bit_test at h
  unfold bit_set
  rw [h, Nat.testBit_lor]
  congr 1
  interval_cases n <;> interval_cases i <;> decide

/-- Bits of `SPI_CR` after `SPI_CR_REn = 0; SPI_CR_SSel = 1;`. -/
theorem cr_tx_bits (cr : Nat) :
    (∀ i, 2 ≤ i → i ≤ 7 → (cr_tx cr).testBit i = cr.testBit i) ∧
    (cr_tx cr).testBit 1 = true ∧ (cr_tx cr).testBit 0 = false := by
  refine ⟨?_, ?_, ?_⟩
  · intro i h2 h7
    have e1 : i ≠ 0 := by omega
    have e2 : i ≠ 1 := by omega
    rw [cr_tx, testBit_bit_set _ _ _ (by norm_num) (by omega),
      testBit_bit_clear _ _ _ (by norm_num) (by omega)]
    simp [e1, e2]
  · rw [cr_tx, testBit_bit_set _ _ _ (by norm_num) (by norm_num)]
    simp
  · rw [cr_tx, testBit_bit_set _ _ _ (by norm_num) (by norm_num),
      testBit_bit_clear _ _ _ (by norm_num) (by norm_num)]
    simp

/-- Bits of `SPI_CR` after `SPI_CR_REn = 1; SPI_CR_SSel = 1;`. -/
theorem cr_rx_bits (cr : Nat) :
    (∀ i, 2 ≤ i → i ≤ 7 → (cr_rx cr).testBit i = cr.testBit i) ∧
    (cr_rx cr).testBit 1 = true ∧ (cr_rx cr).testBit 0 = true := by
  refine ⟨?_, ?_, ?_⟩
  · intro i h2 h7
    have e1 : i ≠ 0 := by omega
    have e2 : i ≠ 1 := by omega
    rw [cr_rx, testBit_bit_set _ _ _ (by norm_num) (by omega),
      testBit_bit_set _ _ _ (by norm_num) (by omega)]
    simp [e1, e2]
  · rw [cr_rx, testBit_bit_set _ _ _ (by norm_num) (by norm_num)]
    simp
  · rw [cr_rx, testBit_bit_set _ _ _ (by norm_num) (by norm_num),
      testBit_bit_set _ _ _ (by norm_num) (by norm_num)]
    simp

/-- Bits of `xSPI_CR` after `xSPI_Manual(Manual)`. -/
theorem xSPI_Manual_bits (Manual : Nat) (m : Machine) :
    (∀ i, i ≤ 6 → (xSPI_Manual Manual m).xSPI_CR.testBit i = m.xSPI_CR.testBit i) ∧
    (xSPI_Manual Manual m).xSPI_CR.testBit 7 = decide (Manual ≠ 0) := by
  have hset : (m.xSPI_CR ||| 0x80) % 256 = bit_set m.xSPI_CR 7 := rfl
  have hclr : m.xSPI_CR &&& 0x7F = bit_clear m.xSPI_CR 7 := rfl
  by_cases hM : Manual = 0
  · have hx : (xSPI_Manual Manual m).xSPI_CR = bit_clear m.xSPI_CR 7 := by
      simp [xSPI_Manual, hM, set_tris_A, emit, hclr]
    rw [hx]
    refine ⟨?_, ?_⟩
    · intro i hi
      have e : i ≠ 7 := by omega
      rw [testBit_bit_clear _ _ _ (by norm_num) (by omega)]
      simp [e]
    · rw [testBit_bit_clear _ _ _ (by norm_num) (by norm_num)]
      simp [hM]
  · have hx : (xSPI_Manual Manual m).xSPI_CR = bit_set m.xSPI_CR 7 := by
      simp [xSPI_Manual, hM, set_tris_A, emit, hset]
    rw [hx]
    refine ⟨?_, ?_⟩
    · intro i hi
      have e : i ≠ 7 := by omega
      rw [testBit_bit_set _ _ _ (by norm_num) (by omega)]
      simp [e]
    · rw [testBit_bit_set _ _ _ (by norm_num) (by norm_num)]
      simp [hM]

/-- C8: a write to one bit of a byte leaves the other seven bits as they
were; for every initial `SPI_CR` and every channel, `set_baud`, `get_char`
and `put_char` (each under the readings with which it returns) leave bits 2
to 7 of `SPI_CR` as they were and leave bit 1 (`SSel`) at 1 and bit 0 (`REn`)
at 0, 1 and 0 respectively; for every initial `xSPI_CR` and every argument,
`xSPI_Manual` leaves bits 0 to 6 of `xSPI_CR` as they were and leaves bit 7
at 1 when the argument is non-zero and at 0 otherwise. -/
theorem bit_writes_keep_sibling_bits (port Manual : Nat) (m : Machine)
    (pre1 : List Nat) (s1 : Nat) (rest1 pre2 : List Nat) (s2 : Nat) (rest2 : List Nat)
    (h l : Nat) (rx : List Nat) (r n : Nat) (v : Bool) :
    (n < 8 → (bit_write r n v).testBit n = v ∧
      ∀ i, i < 8 → i ≠ n → (bit_write r n v).testBit i = r.testBit i) ∧
    (m.sr_in = pre1 ++ s1 :: rest1 →
      (∀ x ∈ pre1, SPI_SR_TF_EF x = false) → SPI_SR_TF_EF s1 = true →
      (∃ m1, set_baud port m = some m1 ∧
        (∀ i, 2 ≤ i → i ≤ 7 → m1.SPI_CR.testBit i = m.SPI_CR.testBit i) ∧
        m1.SPI_CR.testBit 1 = true ∧ m1.SPI_CR.testBit 0 = false) ∧
      (∃ m1, put_char port m = some m1 ∧
        (∀ i, 2 ≤ i → i ≤ 7 → m1.SPI_CR.testBit i = m.SPI_CR.testBit i) ∧
        m1.SPI_CR.testBit 1 = true ∧ m1.SPI_CR.testBit 0 = false) ∧
      (rest1 = pre2 ++ s2 :: rest2 → m.rx_in = h :: l :: rx →
        (∀ x ∈ pre2, SPI_SR_RF_EF x = true) → SPI_SR_RF_EF s2 = false →
        ∃ r m1, get_char port m = some (r, m1) ∧
          (∀ i, 2 ≤ i → i ≤ 7 → m1.SPI_CR.testBit i = m.SPI_CR.testBit i) ∧
          m1.SPI_CR.testBit 1 = true ∧ m1.SPI_CR.testBit 0 = true)) ∧
    (∀ i, i ≤ 6 → (xSPI_Manual Manual m).xSPI_CR.testBit i = m.xSPI_CR.testBit i) ∧
    (xSPI_Manual Manual m).xSPI_CR.testBit 7 = decide (Manual ≠ 0) := by
  refine ⟨?_, ?_, xSPI_Manual_bits Manual m⟩
  · intro hn
    cases v with
    | false =>
      refine ⟨?_, ?_⟩
      · simp [bit_write, testBit_bit_clear r n n hn hn]
      · intro i hi hne
        simp [bit_write, testBit_bit_clear r n i hn hi, hne]
    | true =>
      refine ⟨?_, ?_⟩
      · simp [bit_write, testBit_bit_set r n n hn hn]
      · intro i hi hne
        simp [bit_write, testBit_bit_set r n i hn hi, hne]
  intro hsr hpre1 hs1
  refine ⟨⟨_, set_baud_returns port m pre1 s1 rest1 hsr hpre1 hs1, cr_tx_bits m.SPI_CR⟩,
    ⟨_, put_char_returns port m pre1 s1 rest1 hsr hpre1 hs1, cr_tx_bits m.SPI_CR⟩, ?_⟩
  intro hrest hrx hpre2 hs2
  exact ⟨_, _, get_char_returns port m pre1 s1 pre2 s2 rest2 h l rx (by rw [hsr, hrest]) hrx
    hpre1 hs1 hpre2 hs2, cr_rx_bits m.SPI_CR⟩

/-- Instance of C8 with `SPI_CR = 0xA5` and `xSPI_CR = 0x5A`: the three
functions return with bit 7 of `SPI_CR` still set and bit 0 at 0, 0 and 1,
`xSPI_Manual(1)` sets bit 7 of `xSPI_CR`, and clearing bit 0 of 0xA5 keeps
bit 2. -/
theorem bit_writes_keep_sibling_bits_witness :
    (0 < 8) ∧
    (∀ x ∈ [0, 2], SPI_SR_TF_EF x = false) ∧ SPI_SR_TF_EF 1 = true ∧
    (∀ x ∈ [4], SPI_SR_RF_EF x = true) ∧ SPI_SR_RF_EF 0 = false ∧
    (bit_write 0xA5 0 false).testBit 0 = false ∧
    (bit_write 0xA5 0 false).testBit 2 = true ∧
    (∃ m1, set_baud COM0
        { booted 0 [0, 2, 1, 4, 0] [0x04, 0x61] with SPI_CR := 0xA5, xSPI_CR := 0x5A }
          = some m1 ∧ m1.SPI_CR.testBit 7 = true ∧ m1.SPI_CR.testBit 0 = false) ∧
    (∃ m1, put_char COM0
        { booted 0 [0, 2, 1, 4, 0] [0x04, 0x61] with SPI_CR := 0xA5, xSPI_CR := 0x5A }
          = some m1 ∧ m1.SPI_CR.testBit 7 = true ∧ m1.SPI_CR.testBit 0 = false) ∧
    (∃ r m1, get_char COM0
        { booted 0 [0, 2, 1, 4, 0] [0x04, 0x61] with SPI_CR := 0xA5, xSPI_CR := 0x5A }
          = some (r, m1) ∧ m1.SPI_CR.testBit 7 = true ∧ m1.SPI_CR.testBit 0 = true) ∧
    (xSPI_Manual 1
        { booted 0 [0, 2, 1, 4, 0] [0x04, 0x61] with SPI_CR := 0xA5, xSPI_CR := 0x5A }
      ).xSPI_CR.testBit 7 = true := by
  have h := bit_writes_keep_sibling_bits COM0 1
    { booted 0 [0, 2, 1, 4, 0] [0x04, 0x61] with SPI_CR := 0xA5, xSPI_CR := 0x5A }
    [0, 2] 1 [4, 0] [4] 0 [] 0x04 0x61 [] 0xA5 0 false
  obtain ⟨hw0, hw⟩ := h.1 (by decide)
  obtain ⟨⟨ma, ha, ha7, -, ha0⟩, ⟨mb, hb, hb7, -, hb0⟩, hc⟩ :=
    h.2.1 rfl (by decide) (by decide)
  obtain ⟨r, mc, hc, hc7, -, hc0⟩ := hc rfl rfl (by decide) (by decide)
  exact ⟨by decide, by decide, by decide, by decide, by decide, hw0,
    (hw 2 (by decide) (by decide)).trans (by decide),
    ⟨ma, ha, (ha7 7 (by norm_num) (by norm_num)).trans (by decide), ha0⟩,
    ⟨mb, hb, (hb7 7 (by norm_num) (by norm_num)).trans (by decide), hb0⟩,
    ⟨r, mc, hc, (hc7 7 (by norm_num) (by norm_num)).trans (by decide), hc0⟩,
    h.2.2.2.trans (by decide)⟩

/-! ## Raw SPI word transfers -/

/-- With transmit-FIFO-full reported set on `pre1` and clear on `s1`,
`put_SPI_data08` returns after the accesses listed. -/
theorem put_SPI_data08_returns (data : Nat) (m : Machine) (pre1 : List Nat) (s1 : Nat)
    (rest1 : List Nat) (hsr : m.sr_in = pre1 ++ s1 :: rest1)
    (hpre1 : ∀ x ∈ pre1, SPI_SR_TF_FF x = true) (hs1 : SPI_SR_TF_FF s1 = false) :
    put_SPI_data08 data m
      = some { m with
          SPI_CR := bit_clear m.SPI_CR 0,
          sr_in := rest1,
          trace := m.trace ++
            Event.set_tris_C (bit_clear m.SPI_CR 0) ::
              ((pre1 ++ [s1]).map Event.rd_SPI_SR ++ [Event.wr_PortC data]) } := by
  unfold put_SPI_data08
  simp only [Option.bind_eq_bind]
  rw [spin_while_released SPI_SR_TF_FF _ pre1 s1 rest1
    (by simpa [set_tris_C, emit, set_SPI_CR_REn] using hsr) hpre1 hs1]
  simp [write_PortC, set_tris_C, emit, set_SPI_CR_REn, bit_write]

/-- With transmit-FIFO-full reported set on `pre1`, clear on `s1`, set on
`pre2` and clear on `s2`, `put_SPI_data16` returns after the accesses
listed. -/
theorem put_SPI_data16_returns (data0 data1 : Nat) (m : Machine) (pre1 : List Nat) (s1 : Nat)
    (pre2 : List Nat) (s2 : Nat) (rest2 : List Nat)
    (hsr : m.sr_in = pre1 ++ s1 :: (pre2 ++ s2 :: rest2))
    (hpre1 : ∀ x ∈ pre1, SPI_SR_TF_FF x = true) (hs1 : SPI_SR_TF_FF s1 = false)
    (hpre2 : ∀ x ∈ pre2, SPI_SR_TF_FF x = true) (hs2 : SPI_SR_TF_FF s2 = false) :
    put_SPI_data16 data0 data1 m
      = some { m with
          SPI_CR := bit_clear m.SPI_CR 0,
          sr_in := rest2,
          trace := m.trace ++
            Event.set_tris_C (bit_clear m.SPI_CR 0) ::
              ((pre1 ++ [s1]).map Event.rd_SPI_SR ++ Event.wr_PortC data1 ::
                ((pre2 ++ [s2]).map Event.rd_SPI_SR ++ [Event.wr_PortC data0])) } := by
  unfold put_SPI_data16
  simp only [Option.bind_eq_bind]
  rw [spin_while_released SPI_SR_TF_FF _ pre1 s1 (pre2 ++ s2 :: rest2)
    (by simpa [set_tris_C, emit, set_SPI_CR_REn] using hsr) hpre1 hs1]
  simp only [Option.some_bind, write_PortC, set_tris_C, emit, set_SPI_CR_REn]
  rw [spin_while_released SPI_SR_TF_FF _ pre2 s2 rest2 rfl hpre2 hs2]
  simp [bit_write]

/-- With transmit-FIFO-full reported set on `pre1`, clear on `s1`, set on
`pre2`, clear on `s2`, set on `pre3` and clear on `s3`, `put_SPI_data24`
returns after the accesses listed. -/
theorem put_SPI_data24_returns (data0 data1 data2 : Nat) (m : Machine) (pre1 : List Nat)
    (s1 : Nat) (pre2 : List Nat) (s2 : Nat) (pre3 : List Nat) (s3 : Nat) (rest3 : List Nat)
    (hsr : m.sr_in = pre1 ++ s1 :: (pre2 ++ s2 :: (pre3 ++ s3 :: rest3)))
    (hpre1 : ∀ x ∈ pre1, SPI_SR_TF_FF x = true) (hs1 : SPI_SR_TF_FF s1 = false)
    (hpre2 : ∀ x ∈ pre2, SPI_SR_TF_FF x = true) (hs2 : SPI_SR_TF_FF s2 = false)
    (hpre3 : ∀ x ∈ pre3, SPI_SR_TF_FF x = true) (hs3 : SPI_SR_TF_FF s3 = false) :
    put_SPI_data24 data0 data1 data2 m
      = some { m with
          SPI_CR := bit_clear m.SPI_CR 0,
          sr_in := rest3,
          trace := m.trace ++
            Event.set_tris_C (bit_clear m.SPI_CR 0) ::
              ((pre1 ++ [s1]).map Event.rd_SPI_SR ++ Event.wr_PortC data2 ::
                ((pre2 ++ [s2]).map Event.rd_SPI_SR ++ Event.wr_PortC data1 ::
                  ((pre3 ++ [s3]).map Event.rd_SPI_SR ++ [Event.wr_PortC data0]))) } := by
  unfold put_SPI_data24
  simp only [Option.bind_eq_bind]
  rw [spin_while_released SPI_SR_TF_FF _ pre1 s1 (pre2 ++ s2 :: (pre3 ++ s3 :: rest3))
    (by simpa [set_tris_C, emit, set_SPI_CR_REn] using hsr) hpre1 hs1]
  simp only [Option.some_bind, write_PortC, set_tris_C, emit, set_SPI_CR_REn]
  rw [spin_while_released SPI_SR_TF_FF _ pre2 s2 (pre3 ++ s3 :: rest3) rfl hpre2 hs2]
  simp only [Option.some_bind]
  rw [spin_while_released SPI_SR_TF_FF _ pre3 s3 rest3 rfl hpre3 hs3]
  simp [bit_write]

/-- A released spin followed by a write satisfies the guard. -/
theorem writes_follow_not_full_spin (pre : List Nat) (s v : Nat) (es : List Event)
    (hs : SPI_SR_TF_FF s = false) :
    writes_follow_not_full ((pre ++ [s]).map Event.rd_SPI_SR ++ Event.wr_PortC v :: es)
      = writes_follow_not_full es := by
  induction pre with
  | nil => simp [writes_follow_not_full, hs]
  | cons x xs ih =>
    cases xs with
    | nil => simpa [writes_follow_not_full] using ih
    | cons y ys => simpa [writes_follow_not_full] using ih

/-- C9: for every buffer and all status readings in which transmit-FIFO-full
eventually reads clear before each byte, `put_SPI_data24` returns having
cleared receive-enable and then written exactly `data[2]`, `data[1]`,
`data[0]` to the port in that order, each write directly after a status read
in which transmit-FIFO-full is clear; `put_SPI_data16` does the same with
`data[1]`, `data[0]` and `put_SPI_data08` with its single byte. -/
theorem put_SPI_data_writes_guarded (data0 data1 data2 : Nat) (m : Machine)
    (pre1 : List Nat) (s1 : Nat) (rest1 pre2 : List Nat) (s2 : Nat) (rest2 pre3 : List Nat)
    (s3 : Nat) (rest3 : List Nat) :
    m.sr_in = pre1 ++ s1 :: rest1 →
    (∀ x ∈ pre1, SPI_SR_TF_FF x = true) → SPI_SR_TF_FF s1 = false →
    (∃ m1 new, put_SPI_data08 data0 m = some m1 ∧
      m1.SPI_CR = bit_clear m.SPI_CR 0 ∧ m1.SPI_CR.testBit 0 = false ∧
      m1.trace = m.trace ++ new ∧
      new = Event.set_tris_C (bit_clear m.SPI_CR 0) ::
        ((pre1 ++ [s1]).map Event.rd_SPI_SR ++ [Event.wr_PortC data0]) ∧
      port_writes new = [data0] ∧ writes_follow_not_full new = true) ∧
    (rest1 = pre2 ++ s2 :: rest2 →
      (∀ x ∈ pre2, SPI_SR_TF_FF x = true) → SPI_SR_TF_FF s2 = false →
      (∃ m1 new, put_SPI_data16 data0 data1 m = some m1 ∧
        m1.SPI_CR = bit_clear m.SPI_CR 0 ∧ m1.SPI_CR.testBit 0 = false ∧
        m1.trace = m.trace ++ new ∧
        new = Event.set_tris_C (bit_clear m.SPI_CR 0) ::
          ((pre1 ++ [s1]).map Event.rd_SPI_SR ++ Event.wr_PortC data1 ::
            ((pre2 ++ [s2]).map Event.rd_SPI_SR ++ [Event.wr_PortC data0])) ∧
        port_writes new = [data1, data0] ∧ writes_follow_not_full new = true) ∧
      (rest2 = pre3 ++ s3 :: rest3 →
        (∀ x ∈ pre3, SPI_SR_TF_FF x = true) → SPI_SR_TF_FF s3 = false →
        ∃ m1 new, put_SPI_data24 data0 data1 data2 m = some m1 ∧
          m1.SPI_CR = bit_clear m.SPI_CR 0 ∧ m1.SPI_CR.testBit 0 = false ∧
          m1.trace = m.trace ++ new ∧
          new = Event.set_tris_C (bit_clear m.SPI_CR 0) ::
            ((pre1 ++ [s1]).map Event.rd_SPI_SR ++ Event.wr_PortC data2 ::
              ((pre2 ++ [s2]).map Event.rd_SPI_SR ++ Event.wr_PortC data1 ::
                ((pre3 ++ [s3]).map Event.rd_SPI_SR ++ [Event.wr_PortC data0]))) ∧
          port_writes new = [data2, data1, data0] ∧ writes_follow_not_full new = true)) := by
  have hclr : (bit_clear m.SPI_CR 0).testBit 0 = false := by
    rw [testBit_bit_clear _ _ _ (by norm_num) (by norm_num)]
    simp
  have hpw : ∀ (l : List Nat) (v : Nat) (es : List Event),
      port_writes (l.map Event.rd_SPI_SR ++ Event.wr_PortC v :: es) = v :: port_writes es := by
    intro l v es
    rw [port_writes_append, port_writes_status]
    simp [port_writes]
  have hpc : ∀ (v : Nat) (es : List Event),
      port_writes (Event.set_tris_C v :: es) = port_writes es := by
    intro v es
    simp [port_writes]
  have hgc : ∀ (v : Nat) (es : List Event),
      writes_follow_not_full (Event.set_tris_C v :: es) = writes_follow_not_full es := by
    intro v es
    simp [writes_follow_not_full]
  intro hsr hpre1 hs1
  refine ⟨⟨_, _, put_SPI_data08_returns data0 m pre1 s1 rest1 hsr hpre1 hs1, rfl, hclr, rfl,
    rfl, ?_, ?_⟩, ?_⟩
  · rw [hpc, hpw]
    rfl
  · rw [hgc, writes_follow_not_full_spin _ _ _ _ hs1]
    rfl
  intro hrest1 hpre2 hs2
  refine ⟨⟨_, _, put_SPI_data16_returns data0 data1 m pre1 s1 pre2 s2 rest2
    (by rw [hsr, hrest1]) hpre1 hs1 hpre2 hs2, rfl, hclr, rfl, rfl, ?_, ?_⟩, ?_⟩
  · rw [hpc, hpw, hpw]
    rfl
  · rw [hgc, writes_follow_not_full_spin _ _ _ _ hs1,
      writes_follow_not_full_spin _ _ _ _ hs2]
    rfl
  intro hrest2 hpre3 hs3
  refine ⟨_, _, put_SPI_data24_returns data0 data1 data2 m pre1 s1 pre2 s2 pre3 s3 rest3
    (by rw [hsr, hrest1, hrest2]) hpre1 hs1 hpre2 hs2 hpre3 hs3, rfl, hclr, rfl, rfl, ?_, ?_⟩
  · rw [hpc, hpw, hpw, hpw]
    rfl
  · rw [hgc, writes_follow_not_full_spin _ _ _ _ hs1,
      writes_follow_not_full_spin _ _ _ _ hs2, writes_follow_not_full_spin _ _ _ _ hs3]
    rfl

/-- Instance of C9: buffer `{0x56, 0x34, 0x12}` with the FIFO reported full
twice before the first byte and once before the third. -/
theorem put_SPI_data_writes_guarded_witness :
    (∀ x ∈ [2, 3], SPI_SR_TF_FF x = true) ∧ SPI_SR_TF_FF 1 = false ∧
    (∀ x ∈ ([] : List Nat), SPI_SR_TF_FF x = true) ∧ SPI_SR_TF_FF 0 = false ∧
    (∀ x ∈ [6], SPI_SR_TF_FF x = true) ∧ SPI_SR_TF_FF 4 = false ∧
    (put_SPI_data08 0x56 (booted 0 [2, 3, 1, 0, 6, 4] [])).map (fun m => port_writes m.trace)
      = some [0x56] ∧
    (put_SPI_data16 0x56 0x34 (booted 0 [2, 3, 1, 0, 6, 4] [])).map
      (fun m => port_writes m.trace) = some [0x34, 0x56] ∧
    (put_SPI_data24 0x56 0x34 0x12 (booted 0 [2, 3, 1, 0, 6, 4] [])).map
      (fun m => m.trace) = some
        [Event.set_tris_C 0x1E, Event.rd_SPI_SR 2, Event.rd_SPI_SR 3, Event.rd_SPI_SR 1,
         Event.wr_PortC 0x12, Event.rd_SPI_SR 0, Event.wr_PortC 0x34, Event.rd_SPI_SR 6,
         Event.rd_SPI_SR 4, Event.wr_PortC 0x56] := by
  have h := put_SPI_data_writes_guarded 0x56 0x34 0x12 (booted 0 [2, 3, 1, 0, 6, 4] [])
    [2, 3] 1 [0, 6, 4] [] 0 [6, 4] [6] 4 [] rfl (by decide) (by decide)
  obtain ⟨⟨ma, newa, ha, -, -, hta, -, hwa, -⟩, hb⟩ := h
  obtain ⟨⟨mb, newb, hb, -, -, htb, -, hwb, -⟩, hc⟩ := hb rfl (by decide) (by decide)
  obtain ⟨mc, newc, hc, -, -, htc, hnc, -, -⟩ := hc rfl (by decide) (by decide)
  refine ⟨by decide, by decide, by decide, by decide, by decide, by decide, ?_, ?_, ?_⟩
  · rw [ha, Option.map_some', hta, port_writes_append, hwa]
    rfl
  · rw [hb, Option.map_some', htb, port_writes_append, hwb]
    rfl
  · rw [hc, Option.map_some', htc, hnc]
    rfl

/-! ## The relay loop -/

/-- Call markers of a concatenation. -/
theorem calls_append (a b : List Event) : calls (a ++ b) = calls a ++ calls b := by
  simp [calls]

/-- Status reads carry no call marker. -/
theorem calls_status (l : List Nat) : calls (l.map Event.rd_SPI_SR) = [] := by
  induction l with
  | nil => rfl
  | cons x xs ih => simp [calls, is_call]

/-- Results recorded in a concatenation. -/
theorem get_char_results_append (a b : List Event) :
    get_char_results (a ++ b) = get_char_results a ++ get_char_results b := by
  simp [get_char_results]

/-- Status reads carry no result. -/
theorem get_char_results_status (l : List Nat) :
    get_char_results (l.map Event.rd_SPI_SR) = [] := by
  induction l with
  | nil => rfl
  | cons x xs ih => simp [get_char_results]

/-- Projections of the accesses of one call of `get_char`. -/
theorem get_char_events_proj (port cr : Nat) (pre1 : List Nat) (s1 : Nat) (pre2 : List Nat)
    (s2 h l : Nat) :
    calls (get_char_events port cr pre1 s1 pre2 s2 h l) = [Event.call_get_char port] ∧
    get_char_results (get_char_events port cr pre1 s1 pre2 s2 h l) = [(port, rx_valid h)] ∧
    port_writes (get_char_events port cr pre1 s1 pre2 s2 h l)
      = [(port ^^^ 0x60) % 256, 0xFF] := by
  unfold get_char_events
  refine ⟨?_, ?_, ?_⟩
  · simp only [calls_append, calls_status]
    simp [calls, is_call]
  · simp only [get_char_results_append, get_char_results_status]
    simp [get_char_results]
  · simp only [port_writes_append, port_writes_status]
    simp [port_writes]

/-- Projections of the accesses of one call of `put_char`. -/
theorem put_char_events_proj (port cr b : Nat) (pre : List Nat) (s : Nat) :
    calls (put_char_events port cr b pre s) = [Event.call_put_char port] ∧
    get_char_results (put_char_events port cr b pre s) = [] ∧
    port_writes (put_char_events port cr b pre s)
      = [(port ^^^ 0x50) % 256, transform b] := by
  unfold put_char_events
  refine ⟨?_, ?_, ?_⟩
  · simp only [calls_append, calls_status]
    simp [calls, is_call]
  · simp only [get_char_results_append, get_char_results_status]
    simp [get_char_results]
  · simp only [port_writes_append, port_writes_status]
    simp [port_writes]

/-- Field-wise form of `get_char_returns`. -/
theorem get_char_returns_fields (port : Nat) (m : Machine) (pre1 : List Nat) (s1 : Nat)
    (pre2 : List Nat) (s2 : Nat) (rest : List Nat) (h l : Nat) (rx : List Nat)
    (hsr : m.sr_in = pre1 ++ s1 :: (pre2 ++ s2 :: rest))
    (hrx : m.rx_in = h :: l :: rx)
    (hpre1 : ∀ x ∈ pre1, SPI_SR_TF_EF x = false) (hs1 : SPI_SR_TF_EF s1 = true)
    (hpre2 : ∀ x ∈ pre2, SPI_SR_RF_EF x = true) (hs2 : SPI_SR_RF_EF s2 = false) :
    ∃ m1, get_char port m = some (rx_valid h, m1) ∧ m1.sr_in = rest ∧ m1.rx_in = rx ∧
      m1.SPI_DIO_L = l % 256 ∧ m1.SPI_CR = cr_rx m.SPI_CR ∧
      m1.trace = m.trace ++ get_char_events port m.SPI_CR pre1 s1 pre2 s2 h l := by
  refine ⟨_, get_char_returns port m pre1 s1 pre2 s2 rest h l rx hsr hrx hpre1 hs1 hpre2 hs2,
    rfl, rfl, rfl, rfl, ?_⟩
  simp [get_char_events]

/-- Field-wise form of `put_char_returns`. -/
theorem put_char_returns_fields (port : Nat) (m : Machine) (pre : List Nat) (s : Nat)
    (rest : List Nat) (hsr : m.sr_in = pre ++ s :: rest)
    (hpre : ∀ x ∈ pre, SPI_SR_TF_EF x = false) (hs : SPI_SR_TF_EF s = true) :
    ∃ m1, put_char port m = some m1 ∧ m1.sr_in = rest ∧ m1.rx_in = m.rx_in ∧
      m1.SPI_DIO_L = transform m.SPI_DIO_L ∧ m1.SPI_CR = cr_tx m.SPI_CR ∧
      m1.trace = m.trace ++ put_char_events port m.SPI_CR m.SPI_DIO_L pre s := by
  refine ⟨_, put_char_returns port m pre s rest hsr hpre hs, rfl, rfl, rfl, rfl, ?_⟩
  simp [put_char_events]

/-- A returning call of `get_char` appends one call marker and one result. -/
theorem get_char_trace (port : Nat) (m m1 : Machine) (r : Bool)
    (h : get_char port m = some (r, m1)) :
    ∃ new, m1.trace = m.trace ++ new ∧ calls new = [Event.call_get_char port] ∧
      get_char_results new = [(port, r)] := by
  obtain ⟨pre1, s1, pre2, s2, rest, h0, l0, rx, e, f, p1, q1, p2, q2⟩ :=
    get_char_some port m m1 r h
  obtain ⟨m2, h2, -, -, -, -, ht⟩ :=
    get_char_returns_fields port m pre1 s1 pre2 s2 rest h0 l0 rx e f p1 q1 p2 q2
  rw [h2] at h
  simp only [Option.some.injEq, Prod.mk.injEq] at h
  obtain ⟨hr, hm⟩ := h
  subst hm
  have hp := get_char_events_proj port m.SPI_CR pre1 s1 pre2 s2 h0 l0
  exact ⟨_, ht, hp.1, by rw [hp.2.1, hr]⟩

/-- A returning call of `put_char` appends one call marker and no result. -/
theorem put_char_trace (port : Nat) (m m1 : Machine) (h : put_char port m = some m1) :
    ∃ new, m1.trace = m.trace ++ new ∧ calls new = [Event.call_put_char port] ∧
      get_char_results new = [] := by
  obtain ⟨pre, s, rest, e, p, q⟩ := put_char_some port m m1 h
  obtain ⟨m2, h2, -, -, -, -, ht⟩ := put_char_returns_fields port m pre s rest e p q
  rw [h2] at h
  simp only [Option.some.injEq] at h
  subst h
  have hp := put_char_events_proj port m.SPI_CR m.SPI_DIO_L pre s
  exact ⟨_, ht, hp.1, hp.2.1⟩

/-- The statement `if(get_char(port)) { put_char(port); }`, when it returns,
appends one poll of `port` and a call of `put_char` exactly when the poll
returned true. -/
theorem relay_channel_trace (port : Nat) (m m1 : Machine)
    (h : relay_channel port m = some m1) :
    ∃ r new, m1.trace = m.trace ++ new ∧ get_char_results new = [(port, r)] ∧
      calls new = Event.call_get_char port ::
        (if r = true then [Event.call_put_char port] else []) := by
  unfold relay_channel at h
  simp only [Option.bind_eq_some] at h
  obtain ⟨⟨r, ma⟩, hA, hP⟩ := h
  obtain ⟨newA, tA, cA, gA⟩ := get_char_trace port m ma r hA
  cases r with
  | false =>
    simp only [Bool.false_eq_true, if_false, Option.some.injEq] at hP
    subst hP
    exact ⟨false, newA, tA, gA, by simpa using cA⟩
  | true =>
    simp only [if_true] at hP
    obtain ⟨newP, tP, cP, gP⟩ := put_char_trace port ma m1 hP
    refine ⟨true, newA ++ newP, ?_, ?_, ?_⟩
    · rw [tP, tA, List.append_assoc]
    · rw [get_char_results_append, gA, gP]
      rfl
    · rw [calls_append, cA, cP]
      rfl

/-- Calls made by `n` iterations of the relay loop in which no poll returns
true. -/
theorem relay_loop_trace (n : Nat) (m m1 : Machine) (h : relay_loop n m = some m1) :
    ∃ new, m1.trace = m.trace ++ new ∧
      ((∀ pr ∈ get_char_results new, pr.2 = false) →
        calls new = (List.replicate n
          [Event.call_get_char COM0, Event.call_get_char COM1]).flatten) := by
  induction n generalizing m with
  | zero =>
    simp only [relay_loop, Option.some.injEq] at h
    subst h
    exact ⟨[], by simp, fun _ => rfl⟩
  | succ k ih =>
    simp only [relay_loop, relay_iter, Option.bind_eq_bind, Option.bind_eq_some] at h
    obtain ⟨mb, ⟨ma, hA, hB⟩, hL⟩ := h
    obtain ⟨r0, newA, tA, gA, cA⟩ := relay_channel_trace COM0 m ma hA
    obtain ⟨r1, newB, tB, gB, cB⟩ := relay_channel_trace COM1 ma mb hB
    obtain ⟨newL, tL, cL⟩ := ih mb hL
    refine ⟨newA ++ newB ++ newL, ?_, ?_⟩
    · rw [tL, tB, tA]
      simp
    · intro hidle
      have h0 : r0 = false := by
        have := hidle (COM0, r0) (by simp [get_char_results_append, gA])
        simpa using this
      have h1 : r1 = false := by
        have := hidle (COM1, r1) (by simp [get_char_results_append, gB])
        simpa using this
      have hLidle : ∀ pr ∈ get_char_results newL, pr.2 = false := by
        intro pr hpr
        exact hidle pr (by simp [get_char_results_append, hpr])
      rw [calls_append, calls_append, cA, cB, cL hLidle, h0, h1]
      simp [List.replicate_succ]

/-- The parts of `Poll.idle`. -/
theorem Poll.idle_parts (p : Poll) (h : p.idle = true) :
    (∀ x ∈ p.pre1, SPI_SR_TF_EF x = false) ∧ SPI_SR_TF_EF p.s1 = true ∧
    (∀ x ∈ p.pre2, SPI_SR_RF_EF x = true) ∧ SPI_SR_RF_EF p.s2 = false ∧
    rx_valid p.h = false := by
  simp only [Poll.idle, Bool.and_eq_true, List.all_eq_true, Bool.not_eq_true'] at h
  obtain ⟨⟨⟨⟨h1, h2⟩, h3⟩, h4⟩, h5⟩ := h
  exact ⟨h1, h2, h3, h4, h5⟩

/-- Counts in the expected sequence of calls of `k` idle iterations. -/
theorem idle_calls_count (k : Nat) :
    (List.replicate k [Event.call_get_char COM0, Event.call_get_char COM1]).flatten.count
        (Event.call_get_char COM0) = k ∧
    (List.replicate k [Event.call_get_char COM0, Event.call_get_char COM1]).flatten.count
        (Event.call_get_char COM1) = k ∧
    ∀ port, Event.call_put_char port ∉
      (List.replicate k [Event.call_get_char COM0, Event.call_get_char COM1]).flatten := by
  induction k with
  | zero => simp
  | succ j ih =>
    obtain ⟨a, b, c⟩ := ih
    refine ⟨?_, ?_, ?_⟩
    · have hne : COM1 ≠ COM0 := by decide
      simp [List.replicate_succ, List.count_cons, a, hne]
    · have hne : COM0 ≠ COM1 := by decide
      simp [List.replicate_succ, List.count_cons, b, hne]
    · intro port
      simp [List.replicate_succ, c port]

/-- Whenever `N` iterations of the relay loop have completed with every
result of `get_char` false, the calls made are the `N` alternating polls. -/
theorem relay_loop_calls_of_idle_results (N : Nat) (m m1 : Machine) (new : List Event)
    (hrun : relay_loop N m = some m1) (htrace : m1.trace = m.trace ++ new)
    (hidle : ∀ pr ∈ get_char_results new, pr.2 = false) :
    calls new
      = (List.replicate N [Event.call_get_char COM0, Event.call_get_char COM1]).flatten ∧
    (calls new).count (Event.call_get_char COM0) = N ∧
    (calls new).count (Event.call_get_char COM1) = N ∧
    ∀ port, Event.call_put_char port ∉ new := by
  obtain ⟨new1, t1, c1⟩ := relay_loop_trace N m m1 hrun
  have hnew : new1 = new := List.append_cancel_left (t1.symm.trans htrace)
  subst hnew
  have hc := c1 hidle
  refine ⟨hc, ?_, ?_, ?_⟩
  · rw [hc]; exact (idle_calls_count N).1
  · rw [hc]; exact (idle_calls_count N).2.1
  · intro port hmem
    have : Event.call_put_char port ∈ calls new1 := by
      simp [calls, is_call, hmem]
    rw [hc] at this
    exact (idle_calls_count N).2.2 port this

/-- On any readings made of `2 * n` idle polls, `n` iterations of the relay
loop complete, consume exactly those readings, and every call of `get_char`
returns false. -/
theorem relay_loop_idle_completes (n : Nat) (m : Machine) (ps : List Poll)
    (rest rx : List Nat) (hlen : ps.length = 2 * n) (hidle : ∀ p ∈ ps, p.idle = true)
    (hsr : m.sr_in = (ps.map Poll.status).flatten ++ rest)
    (hrx : m.rx_in = (ps.map Poll.bytes).flatten ++ rx) :
    ∃ m1 new, relay_loop n m = some m1 ∧ m1.trace = m.trace ++ new ∧
      m1.sr_in = rest ∧ m1.rx_in = rx ∧
      get_char_results new = (List.replicate n [(COM0, false), (COM1, false)]).flatten := by
  induction n generalizing m ps with
  | zero =>
    have hps : ps = [] := List.length_eq_zero.mp (by simpa using hlen)
    subst hps
    exact ⟨m, [], rfl, by simp, by simpa using hsr, by simpa using hrx, rfl⟩
  | succ k ih =>
    rcases ps with _ | ⟨a, _ | ⟨b, qs⟩⟩
    · simp at hlen
    · simp at hlen
      omega
    have hqs : qs.length = 2 * k := by
      simp only [List.length_cons] at hlen
      omega
    obtain ⟨a1, a2, a3, a4, a5⟩ := Poll.idle_parts a (hidle a (by simp))
    obtain ⟨b1, b2, b3, b4, b5⟩ := Poll.idle_parts b (hidle b (by simp))
    have hsr1 : m.sr_in = a.pre1 ++ a.s1 :: (a.pre2 ++ a.s2 ::
        (b.pre1 ++ b.s1 :: (b.pre2 ++ b.s2 :: ((qs.map Poll.status).flatten ++ rest)))) := by
      rw [hsr]
      simp [Poll.status]
    have hrx1 : m.rx_in = a.h :: a.l :: (b.h :: b.l :: ((qs.map Poll.bytes).flatten ++ rx)) := by
      rw [hrx]
      simp [Poll.bytes]
    obtain ⟨ma, hga, sra, rxa, -, -, ta⟩ :=
      get_char_returns_fields COM0 m a.pre1 a.s1 a.pre2 a.s2 _ a.h a.l _ hsr1 hrx1 a1 a2 a3 a4
    obtain ⟨mb, hgb, srb, rxb, -, -, tb⟩ :=
      get_char_returns_fields COM1 ma b.pre1 b.s1 b.pre2 b.s2 _ b.h b.l _ sra rxa b1 b2 b3 b4
    obtain ⟨m1, newL, hL, tL, srL, rxL, gL⟩ :=
      ih mb qs hqs (fun p hp => hidle p (by simp [hp])) srb rxb
    have h0 : relay_channel COM0 m = some ma := by
      simp [relay_channel, hga, a5]
    have h1 : relay_channel COM1 ma = some mb := by
      simp [relay_channel, hgb, b5]
    refine ⟨m1, _, by simp [relay_loop, relay_iter, h0, h1, hL],
      by rw [tL, tb, ta, List.append_assoc, List.append_assoc], srL, rxL, ?_⟩
    simp only [get_char_results_append, (get_char_events_proj _ _ _ _ _ _ _ _).2.1, a5, b5, gL]
    simp [List.replicate_succ]

/-- C5: for every `N` and every environment that releases the waits of the
`2 * N` calls of `get_char` and in which none of them finds a valid
character, `N` consecutive iterations of the relay loop complete, every call
of `get_char` returns false, and the calls made are exactly
`get_char(COM0)`, `get_char(COM1)` repeated `N` times in that order:
`get_char` is called `N` times with COM0 and `N` times with COM1, and
`put_char` is not called.  Moreover, whenever `N` iterations have completed
with every call of `get_char` returning false, the calls made are those. -/
theorem relay_loop_idle_polls (N : Nat) (m : Machine) (ps : List Poll) (rest rx : List Nat) :
    (ps.length = 2 * N → (∀ p ∈ ps, p.idle = true) →
      m.sr_in = (ps.map Poll.status).flatten ++ rest →
      m.rx_in = (ps.map Poll.bytes).flatten ++ rx →
      ∃ m1 new, relay_loop N m = some m1 ∧ m1.trace = m.trace ++ new ∧
        m1.sr_in = rest ∧ m1.rx_in = rx ∧
        get_char_results new
          = (List.replicate N [(COM0, false), (COM1, false)]).flatten ∧
        calls new
          = (List.replicate N
              [Event.call_get_char COM0, Event.call_get_char COM1]).flatten ∧
        (calls new).count (Event.call_get_char COM0) = N ∧
        (calls new).count (Event.call_get_char COM1) = N ∧
        ∀ port, Event.call_put_char port ∉ new) ∧
    (∀ m1 new, relay_loop N m = some m1 → m1.trace = m.trace ++ new →
      (∀ pr ∈ get_char_results new, pr.2 = false) →
      calls new
        = (List.replicate N
            [Event.call_get_char COM0, Event.call_get_char COM1]).flatten ∧
      (calls new).count (Event.call_get_char COM0) = N ∧
      (calls new).count (Event.call_get_char COM1) = N ∧
      ∀ port, Event.call_put_char port ∉ new) := by
  refine ⟨?_, fun m1 new hrun htrace hres =>
    relay_loop_calls_of_idle_results N m m1 new hrun htrace hres⟩
  intro hlen hidle hsr hrx
  obtain ⟨m1, new, hrun, htrace, hsr1, hrx1, hres⟩ :=
    relay_loop_idle_completes N m ps rest rx hlen hidle hsr hrx
  have hfalse : ∀ pr ∈ get_char_results new, pr.2 = false := by
    intro pr hpr
    rw [hres] at hpr
    obtain ⟨l, hl, hprl⟩ := List.mem_flatten.mp hpr
    rw [(List.mem_replicate.mp hl).2] at hprl
    simp only [List.mem_cons, List.mem_singleton, List.not_mem_nil, or_false] at hprl
    rcases hprl with e | e <;> rw [e]
  obtain ⟨c1, c2, c3, c4⟩ := relay_loop_calls_of_idle_results N m m1 new hrun htrace hfalse
  exact ⟨m1, new, hrun, htrace, hsr1, hrx1, hres, c1, c2, c3, c4⟩

/-- Instance of C5 with `N = 3`: six polls, some with busy status reads
first, whose first captured bytes are 0x00, 0x01, 0x05, 0x00, 0xFB and
0x03, none of them valid. -/
theorem relay_loop_idle_polls_witness :
    ([Poll.mk [] 1 [] 0 0x00 0x61, Poll.mk [2] 1 [4] 0 0x01 0x62,
      Poll.mk [] 1 [] 0 0x05 0x63, Poll.mk [] 1 [] 0 0x00 0x64,
      Poll.mk [0, 2] 3 [] 8 0xFB 0x65, Poll.mk [] 1 [6, 7] 3 0x03 0x66].length = 2 * 3) ∧
    (∀ p ∈ [Poll.mk [] 1 [] 0 0x00 0x61, Poll.mk [2] 1 [4] 0 0x01 0x62,
      Poll.mk [] 1 [] 0 0x05 0x63, Poll.mk [] 1 [] 0 0x00 0x64,
      Poll.mk [0, 2] 3 [] 8 0xFB 0x65, Poll.mk [] 1 [6, 7] 3 0x03 0x66], p.idle = true) ∧
    (relay_loop 3 (booted 0 [1, 0, 2, 1, 4, 0, 1, 0, 1, 0, 0, 2, 3, 8, 1, 6, 7, 3]
        [0x00, 0x61, 0x01, 0x62, 0x05, 0x63, 0x00, 0x64, 0xFB, 0x65, 0x03, 0x66])).map
      (fun m => (get_char_results m.trace, calls m.trace))
      = some ([(COM0, false), (COM1, false), (COM0, false), (COM1, false),
               (COM0, false), (COM1, false)],
              [Event.call_get_char COM0, Event.call_get_char COM1,
               Event.call_get_char COM0, Event.call_get_char COM1,
               Event.call_get_char COM0, Event.call_get_char COM1]) := by
  obtain ⟨m1, new, hrun, htrace, -, -, hres, hcalls, -, -, -⟩ :=
    (relay_loop_idle_polls 3
      (booted 0 [1, 0, 2, 1, 4, 0, 1, 0, 1, 0, 0, 2, 3, 8, 1, 6, 7, 3]
        [0x00, 0x61, 0x01, 0x62, 0x05, 0x63, 0x00, 0x64, 0xFB, 0x65, 0x03, 0x66])
      [Poll.mk [] 1 [] 0 0x00 0x61, Poll.mk [2] 1 [4] 0 0x01 0x62,
       Poll.mk [] 1 [] 0 0x05 0x63, Poll.mk [] 1 [] 0 0x00 0x64,
       Poll.mk [0, 2] 3 [] 8 0xFB 0x65, Poll.mk [] 1 [6, 7] 3 0x03 0x66]
      [] []).1 (by decide) (by decide) (by decide) (by decide)
  have ht1 : m1.trace = new := htrace
  refine ⟨by decide, by decide, ?_⟩
  rw [hrun, Option.map_some', ht1, hres, hcalls]
  rfl

/-- C6: in one iteration of the relay loop in which `get_char` on one channel
captures a first byte with ready = 1 and error = 0 and the data byte `b`,
while `get_char` on the other channel reports no valid character, the
iteration completes, `put_char` is called exactly once, for the channel that
received, and the bytes it writes to the port are that channel XOR 0x50 and
then the conversion of `b`; the only other writes are the two polls.  The
first part is the case of COM0, the second the case of COM1. -/
theorem relay_iter_relays_valid_char (b : Nat) (m : Machine)
    (preA : List Nat) (sA : Nat) (preB : List Nat) (sB : Nat) (preP : List Nat) (sP : Nat)
    (preC : List Nat) (sC : Nat) (preD : List Nat) (sD : Nat) (rest : List Nat)
    (hv hi li : Nat) (rx : List Nat)
    (hb : b < 256)
    (hready : hv.testBit 2 = true) (herr : hv.testBit 0 = false)
    (hinvalid : rx_valid hi = false)
    (hA : ∀ x ∈ preA, SPI_SR_TF_EF x = false) (hsA : SPI_SR_TF_EF sA = true)
    (hB : ∀ x ∈ preB, SPI_SR_RF_EF x = true) (hsB : SPI_SR_RF_EF sB = false)
    (hP : ∀ x ∈ preP, SPI_SR_TF_EF x = false) (hsP : SPI_SR_TF_EF sP = true)
    (hC : ∀ x ∈ preC, SPI_SR_TF_EF x = false) (hsC : SPI_SR_TF_EF sC = true)
    (hD : ∀ x ∈ preD, SPI_SR_RF_EF x = true) (hsD : SPI_SR_RF_EF sD = false) :
    (m.sr_in = preA ++ sA :: (preB ++ sB :: (preP ++ sP ::
        (preC ++ sC :: (preD ++ sD :: rest)))) →
      m.rx_in = hv :: b :: hi :: li :: rx →
      ∃ m1 new, relay_iter m = some m1 ∧ m1.trace = m.trace ++ new ∧
        calls new = [Event.call_get_char COM0, Event.call_put_char COM0,
                     Event.call_get_char COM1] ∧
        get_char_results new = [(COM0, true), (COM1, false)] ∧
        port_writes new = [(COM0 ^^^ 0x60) % 256, 0xFF,
                           (COM0 ^^^ 0x50) % 256, transform b,
                           (COM1 ^^^ 0x60) % 256, 0xFF]) ∧
    (m.sr_in = preA ++ sA :: (preB ++ sB :: (preC ++ sC ::
        (preD ++ sD :: (preP ++ sP :: rest)))) →
      m.rx_in = hi :: li :: hv :: b :: rx →
      ∃ m1 new, relay_iter m = some m1 ∧ m1.trace = m.trace ++ new ∧
        calls new = [Event.call_get_char COM0, Event.call_get_char COM1,
                     Event.call_put_char COM1] ∧
        get_char_results new = [(COM0, false), (COM1, true)] ∧
        port_writes new = [(COM0 ^^^ 0x60) % 256, 0xFF,
                           (COM1 ^^^ 0x60) % 256, 0xFF,
                           (COM1 ^^^ 0x50) % 256, transform b]) := by
  have hvalid : rx_valid hv = true := by
    simp [rx_valid, bit_test, hready, herr]
  have hbm : b % 256 = b := Nat.mod_eq_of_lt hb
  refine ⟨?_, ?_⟩
  · intro hsr hrx
    obtain ⟨ma, hga, sra, rxa, La, -, ta⟩ :=
      get_char_returns_fields COM0 m preA sA preB sB _ hv b _ hsr hrx hA hsA hB hsB
    obtain ⟨mb, hpb, srb, rxb, -, -, tb⟩ :=
      put_char_returns_fields COM0 ma preP sP _ sra hP hsP
    obtain ⟨mc, hgc, -, -, -, -, tc⟩ :=
      get_char_returns_fields COM1 mb preC sC preD sD rest hi li rx srb (rxb.trans rxa)
        hC hsC hD hsD
    have h0 : relay_channel COM0 m = some mb := by
      simp [relay_channel, hga, hvalid, hpb]
    have h1 : relay_channel COM1 mb = some mc := by
      simp [relay_channel, hgc, hinvalid]
    refine ⟨mc, _, by simp [relay_iter, h0, h1],
      by rw [tc, tb, ta, List.append_assoc, List.append_assoc], ?_, ?_, ?_⟩
    · simp only [calls_append, (get_char_events_proj _ _ _ _ _ _ _ _).1,
        (put_char_events_proj _ _ _ _ _).1]
      rfl
    · simp only [get_char_results_append, (get_char_events_proj _ _ _ _ _ _ _ _).2.1,
        (put_char_events_proj _ _ _ _ _).2.1, hvalid, hinvalid]
      rfl
    · simp only [port_writes_append, (get_char_events_proj _ _ _ _ _ _ _ _).2.2,
        (put_char_events_proj _ _ _ _ _).2.2, La, hbm]
      rfl
  · intro hsr hrx
    obtain ⟨ma, hga, sra, rxa, -, -, ta⟩ :=
      get_char_returns_fields COM0 m preA sA preB sB _ hi li _ hsr hrx hA hsA hB hsB
    obtain ⟨mb, hgb, srb, -, Lb, -, tb⟩ :=
      get_char_returns_fields COM1 ma preC sC preD sD _ hv b rx sra rxa hC hsC hD hsD
    obtain ⟨mc, hpc, -, -, -, -, tc⟩ :=
      put_char_returns_fields COM1 mb preP sP rest srb hP hsP
    have h0 : relay_channel COM0 m = some ma := by
      simp [relay_channel, hga, hinvalid]
    have h1 : relay_channel COM1 ma = some mc := by
      simp [relay_channel, hgb, hvalid, hpc]
    refine ⟨mc, _, by simp [relay_iter, h0, h1],
      by rw [tc, tb, ta, List.append_assoc, List.append_assoc], ?_, ?_, ?_⟩
    · simp only [calls_append, (get_char_events_proj _ _ _ _ _ _ _ _).1,
        (put_char_events_proj _ _ _ _ _).1]
      rfl
    · simp only [get_char_results_append, (get_char_events_proj _ _ _ _ _ _ _ _).2.1,
        (put_char_events_proj _ _ _ _ _).2.1, hvalid, hinvalid]
      rfl
    · simp only [port_writes_append, (get_char_events_proj _ _ _ _ _ _ _ _).2.2,
        (put_char_events_proj _ _ _ _ _).2.2, Lb, hbm]
      rfl

/-- Instance of C6: `'a'` (0x61) received on COM0 with ready = 1 and
error = 0 is sent as `'A'` (0x41) on COM0 and nothing is sent on COM1; the
same byte received on COM1 is sent as 0x41 on COM1 and nothing is sent on
COM0. -/
theorem relay_iter_relays_valid_char_witness :
    (0x61 < 256) ∧ Nat.testBit 0x04 2 = true ∧ Nat.testBit 0x04 0 = false ∧
    rx_valid 0x00 = false ∧
    (∀ x ∈ [0], SPI_SR_TF_EF x = false) ∧ SPI_SR_TF_EF 1 = true ∧
    (∀ x ∈ [4], SPI_SR_RF_EF x = true) ∧ SPI_SR_RF_EF 0 = false ∧
    (∀ x ∈ [2], SPI_SR_TF_EF x = false) ∧ SPI_SR_TF_EF 3 = true ∧
    (∀ x ∈ ([] : List Nat), SPI_SR_TF_EF x = false) ∧ SPI_SR_TF_EF 5 = true ∧
    (∀ x ∈ ([] : List Nat), SPI_SR_RF_EF x = true) ∧ SPI_SR_RF_EF 8 = false ∧
    (relay_iter (booted 0 [0, 1, 4, 0, 2, 3, 5, 8] [0x04, 0x61, 0x00, 0x00])).map
      (fun m => (calls m.trace, port_writes m.trace))
      = some ([Event.call_get_char 0x00, Event.call_put_char 0x00, Event.call_get_char 0x80],
              [0x60, 0xFF, 0x50, 0x41, 0xE0, 0xFF]) ∧
    (relay_iter (booted 0 [0, 1, 4, 0, 5, 8, 2, 3] [0x00, 0x00, 0x04, 0x61])).map
      (fun m => (calls m.trace, port_writes m.trace))
      = some ([Event.call_get_char 0x00, Event.call_get_char 0x80, Event.call_put_char 0x80],
              [0x60, 0xFF, 0xE0, 0xFF, 0xD0, 0x41]) := by
  refine ⟨by decide, by decide, by decide, by decide, by decide, by decide, by decide,
    by decide, by decide, by decide, by decide, by decide, by decide, by decide, ?_, ?_⟩
  · obtain ⟨m1, new, hr, ht, hc, -, hw⟩ :=
      (relay_iter_relays_valid_char 0x61
        (booted 0 [0, 1, 4, 0, 2, 3, 5, 8] [0x04, 0x61, 0x00, 0x00])
        [0] 1 [4] 0 [2] 3 [] 5 [] 8 [] 0x04 0x00 0x00 []
        (by decide) (by decide) (by decide) (by decide) (by decide) (by decide) (by decide)
        (by decide) (by decide) (by decide) (by decide) (by decide) (by decide)
        (by decide)).1 rfl rfl
    have ht1 : m1.trace = new := ht
    rw [hr, Option.map_some', ht1, hc, hw]
    rfl
  · obtain ⟨m1, new, hr, ht, hc, -, hw⟩ :=
      (relay_iter_relays_valid_char 0x61
        (booted 0 [0, 1, 4, 0, 5, 8, 2, 3] [0x00, 0x00, 0x04, 0x61])
        [0] 1 [4] 0 [2] 3 [] 5 [] 8 [] 0x04 0x00 0x00 []
        (by decide) (by decide) (by decide) (by decide) (by decide) (by decide) (by decide)
        (by decide) (by decide) (by decide) (by decide) (by decide) (by decide)
        (by decide)).2 rfl rfl
    have ht1 : m1.trace = new := ht
    rw [hr, Option.map_some', ht1, hc, hw]
    rfl

end M16C5x
